import Mathlib

/-!
Shallow embedding of the dependency-tracking core of the reactive state
engine found in the TypeScript sources: the derivation-state enum, the
observable/derivation graph with its bookkeeping fields, staleness
propagation (`propagateChanged`, `propagateChangeConfirmed`), dependency
tracking and rebinding (`trackDerivedFunction`, `bindDependencies`,
`reportObserved`), recomputation decisions (`shouldCompute`), batching
(`startBatch`, `endBatch`, `queueForUnobservation`), and the
`ObservableValue` pipeline with interceptors and change listeners.

Mutable JavaScript state is modelled by explicit state passing on a
`World` record; observables and derivations are identified by natural
numbers; hooks whose implementations live outside the provided sources
(`onBecomeStale`, `onBecomeUnobserved`, `reportChanged` of the atom base
class) are recorded as events or modelled by the effect the sources
document for them.
-/

/-- Source enum `IDerivationState` (derivation.ts lines 6-24). -/
inductive IDerivationState where
  | NOT_TRACKING
  | UP_TO_DATE
  | POSSIBLY_STALE
  | STALE
deriving DecidableEq, Repr

/-- Numeric value of the source enum: -1, 0, 1, 2. -/
def IDerivationState.toInt : IDerivationState → Int
  | .NOT_TRACKING => -1
  | .UP_TO_DATE => 0
  | .POSSIBLY_STALE => 1
  | .STALE => 2

/-- Observable-side bookkeeping (interface `IObservable`, observable.ts).
`observers` holds derivation ids; `observersIndexes` is the map from a
derivation id to its index in `observers` (index 0 is never stored).
`onUnobservedQueue` stands for the external `onBecomeUnobserved` hook,
abstracted as the observables that hook pushes through
`queueForUnobservation` (the source notes at its call site that the hook
"might push to pendingUnobservations").  `isComputed` is the
`isComputedValue` discriminator used by `shouldCompute`. -/
structure ObsData where
  diffValue : Nat
  lastAccessedBy : Nat
  observers : List Nat
  observersIndexes : List (Nat × Nat)
  lowestObserverState : IDerivationState
  isPendingUnobservation : Bool
  isComputed : Bool
  onUnobservedQueue : List Nat

/-- Derivation-side bookkeeping (interface `IDerivation`, derivation.ts).
`newObserving` is the scratch list of the current run; only the prefix of
entries actually written is modelled, so the source's `unboundDepsCount`
is its length. -/
structure DerivData where
  observing : List Nat
  newObserving : Option (List Nat)
  dependenciesState : IDerivationState
  runId : Nat

/-- The process-wide mutable state (`globalState`) together with the heap
of observables and derivations, addressed by id. -/
structure World where
  trackingDerivation : Option Nat
  runId : Nat
  inBatch : Nat
  pendingUnobservations : List Nat
  pendingReactions : List Nat
  allowStateChanges : Bool
  obs : Nat → ObsData
  derivs : Nat → DerivData

/-- Point update of one observable record. -/
def World.updObs (s : World) (oid : Nat) (f : ObsData → ObsData) : World :=
  { s with obs := fun i => if i = oid then f (s.obs i) else s.obs i }

/-- Point update of one derivation record. -/
def World.updDeriv (s : World) (did : Nat) (f : DerivData → DerivData) : World :=
  { s with derivs := fun i => if i = did then f (s.derivs i) else s.derivs i }

/-- Loop body of `propagateChanged` (observable.ts lines 312-317): when the
observer is `UP_TO_DATE` its `onBecomeStale` hook fires (recorded in the
event list), then its `dependenciesState` is set to `STALE`. -/
def propagateChangedStep (acc : World × List Nat) (did : Nat) : World × List Nat :=
  let calls := if (acc.1.derivs did).dependenciesState = IDerivationState.UP_TO_DATE
    then acc.2 ++ [did] else acc.2
  (acc.1.updDeriv did (fun d => { d with dependenciesState := IDerivationState.STALE }), calls)

/-- `propagateChanged` (observable.ts lines 305-319).  The returned list
records the observers on which `onBecomeStale()` was invoked, in call
order (the source iterates `observers` back to front). -/
def propagateChanged (s : World) (oid : Nat) : World × List Nat :=
  if (s.obs oid).lowestObserverState = IDerivationState.STALE then (s, [])
  else
    let s1 := s.updObs oid (fun o => { o with lowestObserverState := IDerivationState.STALE })
    ((s1.obs oid).observers.reverse).foldl propagateChangedStep (s1, [])

/-- Loop body of `propagateChangeConfirmed` (observable.ts lines 329-336):
a `POSSIBLY_STALE` observer becomes `STALE`; an `UP_TO_DATE` observer is
currently tracking this confirmation, so the observable's
`lowestObserverState` is raised back to `UP_TO_DATE`. -/
def propagateChangeConfirmedStep (oid : Nat) (s : World) (did : Nat) : World :=
  if (s.derivs did).dependenciesState = IDerivationState.POSSIBLY_STALE then
    s.updDeriv did (fun d => { d with dependenciesState := IDerivationState.STALE })
  else if (s.derivs did).dependenciesState = IDerivationState.UP_TO_DATE then
    s.updObs oid (fun o => { o with lowestObserverState := IDerivationState.UP_TO_DATE })
  else s

/-- `propagateChangeConfirmed` (observable.ts lines 322-338). -/
def propagateChangeConfirmed (s : World) (oid : Nat) : World :=
  if (s.obs oid).lowestObserverState = IDerivationState.STALE then s
  else
    let s1 := s.updObs oid (fun o => { o with lowestObserverState := IDerivationState.STALE })
    ((s1.obs oid).observers.reverse).foldl (propagateChangeConfirmedStep oid) s1

/-- Association-map helpers for `observersIndexes` (a JS object keyed by
the derivation's `__mapid`; derivation ids play the role of mapids). -/
def mapSet (m : List (Nat × Nat)) (k v : Nat) : List (Nat × Nat) :=
  (k, v) :: m.filter (fun p => decide (p.1 ≠ k))

/-- Deletion from the `observersIndexes` map. -/
def mapDel (m : List (Nat × Nat)) (k : Nat) : List (Nat × Nat) :=
  m.filter (fun p => decide (p.1 ≠ k))

/-- Lookup in the `observersIndexes` map; the source reads
`map[node.__mapid] || 0`. -/
def mapGet (m : List (Nat × Nat)) (k : Nat) : Nat :=
  (m.lookup k).getD 0

/-- `queueForUnobservation` (observable.ts 234-241): push the observable
at most once per arming of `isPendingUnobservation`.  The returned list
records the push, if any. -/
def queueForUnobservation (s : World) (oid : Nat) : World × List Nat :=
  if (s.obs oid).isPendingUnobservation then (s, [])
  else
    let s1 := s.updObs oid (fun o => { o with isPendingUnobservation := true })
    ({ s1 with pendingUnobservations := s1.pendingUnobservations ++ [oid] }, [oid])

/-- `addObserver` (observable.ts 187-202): record the index of any entry
but the first, append, and lower `lowestObserverState` to the new
observer's `dependenciesState` when that is smaller. -/
def addObserver (s : World) (oid did : Nat) : World :=
  let l := (s.obs oid).observers.length
  let s1 := if l ≠ 0 then
      s.updObs oid (fun o => { o with observersIndexes := mapSet o.observersIndexes did l })
    else s
  let s2 := s1.updObs oid (fun o => { o with observers := o.observers ++ [did] })
  if ((s2.obs oid).lowestObserverState).toInt > ((s2.derivs did).dependenciesState).toInt then
    s2.updObs oid (fun o => { o with lowestObserverState := (s2.derivs did).dependenciesState })
  else s2

/-- `removeObserver` (observable.ts 204-232): when the last observer
leaves, clear the list and queue for unobservation; otherwise swap the
removed entry with the popped last element, fixing `observersIndexes`. -/
def removeObserver (s : World) (oid did : Nat) : World :=
  if (s.obs oid).observers.length = 1 then
    let s1 := s.updObs oid (fun o => { o with observers := [] })
    (queueForUnobservation s1 oid).1
  else
    match (s.obs oid).observers.getLast? with
    | none => s
    | some filler =>
      let rest := (s.obs oid).observers.dropLast
      let s1 :=
        if filler = did then
          s.updObs oid (fun o => { o with observers := rest })
        else
          let index := mapGet (s.obs oid).observersIndexes did
          let s2 := s.updObs oid (fun o =>
            { o with observersIndexes :=
                if index ≠ 0 then mapSet o.observersIndexes filler index
                else mapDel o.observersIndexes filler })
          s2.updObs oid (fun o => { o with observers := rest.set index filler })
      s1.updObs oid (fun o => { o with observersIndexes := mapDel o.observersIndexes did })

/-- `startBatch` (observable.ts 248-250). -/
def startBatch (s : World) : World :=
  { s with inBatch := s.inBatch + 1 }

/-- Modelled from the spec: `runReactions` lives in reaction.ts, which is
not among the provided sources.  Per the spec it drains
`pendingReactions` in FIFO order when the outermost batch closes;
reactions are opaque ids here, so the drain is a single pass whose run
list is returned. -/
def runReactions (s : World) : World × List Nat :=
  ({ s with pendingReactions := [] }, s.pendingReactions)

/-- One iteration of the unobservation drain in `endBatch` (observable.ts
257-263): clear `isPendingUnobservation`; when the observable has no
observers fire `onBecomeUnobserved` (recorded in the fired list), whose
abstracted effect is to push its `onUnobservedQueue` through
`queueForUnobservation`.  Returns world, fires and pushes. -/
def drainStep (s : World) (oid : Nat) : World × List Nat × List Nat :=
  let s1 := s.updObs oid (fun o => { o with isPendingUnobservation := false })
  if (s1.obs oid).observers = [] then
    let r := (s1.obs oid).onUnobservedQueue.foldl
      (fun acc x =>
        let q := queueForUnobservation acc.1 x
        (q.1, acc.2 ++ q.2)) (s1, [])
    (r.1, [oid], r.2)
  else (s1, [], [])

/-- The `for (let i = 0; i < list.length; i++)` drain over the growing
`pendingUnobservations` list: the source re-reads the length every
iteration, so entries appended by hooks are processed in the same pass.
`fuel` bounds the number of iterations (the source loop likewise never
finishes if hooks keep re-queueing forever). -/
def endBatchDrain (fuel : Nat) (s : World) (i : Nat) : World × List Nat × List Nat :=
  match fuel with
  | 0 => (s, [], [])
  | fuel + 1 =>
    match s.pendingUnobservations.get? i with
    | none => (s, [], [])
    | some oid =>
      let a := drainStep s oid
      let b := endBatchDrain fuel a.1 (i + 1)
      (b.1, a.2.1 ++ b.2.1, a.2.2 ++ b.2.2)

/-- Events produced by one `endBatch` call: the reactions run, the
`onBecomeUnobserved` hooks fired, and the pushes performed by hooks
during the drain. -/
structure EndBatchEvents where
  reactionsRun : List Nat
  fired : List Nat
  pushed : List Nat
deriving DecidableEq, Repr

/-- `endBatch` (observable.ts 252-267): decrement `inBatch`; when it
reaches zero run the pending reactions, drain `pendingUnobservations`
(with `fuel` bounding the loop) and replace the queue with an empty
list. -/
def endBatch (fuel : Nat) (s : World) : World × EndBatchEvents :=
  let s0 := { s with inBatch := s.inBatch - 1 }
  if s0.inBatch = 0 then
    let rr := runReactions s0
    let d := endBatchDrain fuel rr.1 0
    ({ d.1 with pendingUnobservations := [] },
     { reactionsRun := rr.2, fired := d.2.1, pushed := d.2.2 })
  else (s0, { reactionsRun := [], fired := [], pushed := [] })

/-- `reportObserved` (observable.ts 269-284): inside a tracked run a
fresh `runId` dedupes repeated reads; outside tracking an unobserved
observable is queued for unobservation. -/
def reportObserved (s : World) (oid : Nat) : World :=
  match s.trackingDerivation with
  | some did =>
    if (s.derivs did).runId ≠ (s.obs oid).lastAccessedBy then
      let s1 := s.updObs oid (fun o => { o with lastAccessedBy := (s.derivs did).runId })
      s1.updDeriv did (fun d =>
        { d with newObserving := some ((d.newObserving.getD []) ++ [oid]) })
    else s
  | none =>
    if (s.obs oid).observers.length = 0 then (queueForUnobservation s oid).1 else s

/-- Loop body of `changeDependenciesStateTo0` (derivation.ts 233-236). -/
def markLowestUpToDate (w : World) (oid : Nat) : World :=
  w.updObs oid (fun o => { o with lowestObserverState := IDerivationState.UP_TO_DATE })

/-- `changeDependenciesStateTo0` (derivation.ts 229-237). -/
def changeDependenciesStateTo0 (s : World) (did : Nat) : World :=
  if (s.derivs did).dependenciesState = IDerivationState.UP_TO_DATE then s
  else
    let s1 := s.updDeriv did (fun d => { d with dependenciesState := IDerivationState.UP_TO_DATE })
    ((s1.derivs did).observing.reverse).foldl markLowestUpToDate s1

/-- `untrackedStart` (derivation.ts 215-219). -/
def untrackedStart (s : World) : World × Option Nat :=
  ({ s with trackingDerivation := none }, s.trackingDerivation)

/-- `untrackedEnd` (derivation.ts 221-223). -/
def untrackedEnd (s : World) (prev : Option Nat) : World :=
  { s with trackingDerivation := prev }

/-- Spec-side characterization of the claim "duplicate-free and ordered
by the position of the first read": keep the first occurrence of every
element, in first-occurrence order. -/
def dedupFirst : List Nat → List Nat
  | [] => []
  | a :: l => a :: dedupFirst (l.filter (fun b => decide (b ≠ a)))
termination_by l => l.length
decreasing_by
  simp only [List.length_cons]
  exact Nat.lt_succ_of_le (List.length_filter_le _ _)

/-- The accumulator form of first-occurrence dedup, matching how
`reportObserved` grows `newObserving` one read at a time. -/
def dedupAcc (acc : List Nat) : List Nat → List Nat
  | [] => acc
  | a :: l => dedupAcc (if a ∈ acc then acc else acc ++ [a]) l

/-- Result of `trackDerivedFunction`: the value of `f`, or the
`CaughtException` sentinel wrapping the thrown cause (derivation.ts
47-51, 130-134). -/
inductive TrackResult (α : Type) where
  | value (v : α)
  | caught (cause : Nat)
deriving DecidableEq, Repr

/-- Loop body of pass A of `bindDependencies` (derivation.ts 163-170):
a first occurrence (`diffValue` 0) is marked and compacted into the
output, an extra occurrence is dropped. -/
def bindPassAStep (acc : World × List Nat) (dep : Nat) : World × List Nat :=
  if (acc.1.obs dep).diffValue = 0 then
    (acc.1.updObs dep (fun o => { o with diffValue := 1 }), acc.2 ++ [dep])
  else acc

/-- Pass A of `bindDependencies` (derivation.ts 162-171): dedup the new
observing list via `diffValue`, compacting first occurrences in order. -/
def bindPassA (s : World) (l : List Nat) : World × List Nat :=
  l.foldl bindPassAStep (s, [])

/-- Loop body of pass B of `bindDependencies` (derivation.ts 177-183). -/
def bindPassBStep (did : Nat) (w : World) (dep : Nat) : World :=
  let w1 := if (w.obs dep).diffValue = 0 then removeObserver w dep did else w
  w1.updObs dep (fun o => { o with diffValue := 0 })

/-- Pass B of `bindDependencies` (derivation.ts 176-183): iterate the old
observing list back to front, unobserving entries not in the new set and
resetting `diffValue`. -/
def bindPassB (s : World) (prev : List Nat) (did : Nat) : World :=
  prev.reverse.foldl (bindPassBStep did) s

/-- Loop body of pass C of `bindDependencies` (derivation.ts 188-194). -/
def bindPassCStep (did : Nat) (w : World) (dep : Nat) : World :=
  if (w.obs dep).diffValue = 1 then
    addObserver (w.updObs dep (fun o => { o with diffValue := 0 })) dep did
  else w

/-- Pass C of `bindDependencies` (derivation.ts 188-194): iterate the new
observing list back to front, observing entries that were not previously
observed. -/
def bindPassC (s : World) (neu : List Nat) (did : Nat) : World :=
  neu.reverse.foldl (bindPassCStep did) s

/-- `bindDependencies` (derivation.ts 151-195).  The in-place compaction
and truncation of the source array is modelled by installing the
compacted pass-A output as the new `observing`. -/
def bindDependencies (s : World) (did : Nat) : World :=
  let prevObserving := (s.derivs did).observing
  let newObs := (s.derivs did).newObserving.getD []
  let s1 := s.updDeriv did (fun d => { d with newObserving := none })
  let pa := bindPassA s1 newObs
  let s2 := pa.1.updDeriv did (fun d => { d with observing := pa.2 })
  let s3 := bindPassB s2 prevObserving did
  bindPassC s3 pa.2 did

/-- The tracked run of `f` abstracted as the sequence of observables it
reads, each read reaching `reportObserved`. -/
def trackReads (s : World) (reads : List Nat) : World :=
  reads.foldl reportObserved s

/-- `trackDerivedFunction` (derivation.ts 120-138): reset the dependency
state, allocate a fresh `newObserving` and a fresh run id, run `f` with
the tracking slot set (a throw is captured into the `CaughtException`
sentinel), restore the slot, and bind dependencies. -/
def trackDerivedFunction (s : World) (did : Nat) (reads : List Nat)
    (outcome : Except Nat α) : World × TrackResult α :=
  let s1 := changeDependenciesStateTo0 s did
  let s2 := s1.updDeriv did (fun d => { d with newObserving := some [] })
  let s3 := { s2 with runId := s2.runId + 1 }
  let s4 := s3.updDeriv did (fun d => { d with runId := s3.runId })
  let prevTracking := s4.trackingDerivation
  let s5 := { s4 with trackingDerivation := some did }
  let s6 := trackReads s5 reads
  let result : TrackResult α := match outcome with
    | .ok v => .value v
    | .error e => .caught e
  let s7 := { s6 with trackingDerivation := prevTracking }
  (bindDependencies s7 did, result)

/-- Abstraction of `ComputedValue.get()` as observed by `shouldCompute`
(computedvalue.ts is not among the provided sources): given the tracking
slot, the computed's id and the walking derivation's current
`dependenciesState`, it yields that derivation's state after the call (a
changed computed propagates `STALE` to its `POSSIBLY_STALE` observers)
and whether the getter threw. -/
abbrev ComputedGet := Option Nat → Nat → IDerivationState → IDerivationState × Bool

/-- The `POSSIBLY_STALE` loop of `shouldCompute` (derivation.ts 73-94):
walk `observing` in stored order, calling `get()` on computed entries; a
throw or a transition of the derivation to `STALE` stops the walk with
result true; completing the walk calls `changeDependenciesStateTo0` with
result false.  Calls to computed dependencies are recorded with the
tracking slot they saw. -/
def shouldComputeWalk (eff : ComputedGet) (did : Nat) :
    World → List Nat → World × Bool × List (Nat × Option Nat)
  | s, [] => (changeDependenciesStateTo0 s did, false, [])
  | s, oid :: rest =>
    if (s.obs oid).isComputed then
      let call := (oid, s.trackingDerivation)
      let r := eff s.trackingDerivation oid (s.derivs did).dependenciesState
      let s1 := s.updDeriv did (fun d => { d with dependenciesState := r.1 })
      if r.2 then (s1, true, [call])
      else if (s1.derivs did).dependenciesState = IDerivationState.STALE then (s1, true, [call])
      else
        let w := shouldComputeWalk eff did s1 rest
        (w.1, w.2.1, call :: w.2.2)
    else shouldComputeWalk eff did s rest

/-- `shouldCompute` (derivation.ts 67-97). -/
def shouldCompute (eff : ComputedGet) (s : World) (did : Nat) :
    World × Bool × List (Nat × Option Nat) :=
  match (s.derivs did).dependenciesState with
  | .UP_TO_DATE => (s, false, [])
  | .NOT_TRACKING => (s, true, [])
  | .STALE => (s, true, [])
  | .POSSIBLY_STALE =>
    let u := untrackedStart s
    let w := shouldComputeWalk eff did u.1 ((u.1.derivs did).observing)
    (untrackedEnd w.1 u.2, w.2.1, w.2.2)

/-- A change object handed to interceptors (`IValueWillChange`);
`hasType` abstracts the presence of a truthy `type` field, which the
interceptor contract demands of every truthy return. -/
structure IValueWillChange (V : Type) where
  hasType : Bool
  newValue : V
deriving DecidableEq, Repr

/-- Outcome of one interceptor call: a (possibly modified) change
object, a falsy value, or a thrown exception. -/
inductive InterceptorOutcome (V : Type) where
  | ret (c : Option (IValueWillChange V))
  | thrown (e : Nat)

/-- An interceptor; its first argument is the tracking slot in effect
while it runs. -/
abbrev Interceptor (V : Type) := Option Nat → IValueWillChange V → InterceptorOutcome V

/-- Failures escaping `interceptChange` and `prepareNewValue`: a user
exception from an interceptor, or a fatal `invariant` violation. -/
inductive InterceptError where
  | userExc (e : Nat)
  | invariantViolation
deriving DecidableEq, Repr

/-- The slice of `globalState` the ObservableValue pipeline touches. -/
structure GlobalEnv where
  trackingDerivation : Option Nat
  allowStateChanges : Bool
deriving DecidableEq, Repr

/-- The interceptor loop of `interceptChange` (intercept-utils 62-67):
run the chain in registration order; a truthy result must carry a `type`
field (enforced by `invariant`), a falsy result stops the chain.
Returns the result paired with the tracking slot seen by each invoked
interceptor, in call order. -/
def interceptLoop {V : Type} (td : Option Nat) :
    List (Interceptor V) → IValueWillChange V →
    Except InterceptError (Option (IValueWillChange V)) × List (Option Nat)
  | [], c => (.ok (some c), [])
  | f :: fs, c =>
    match f td c with
    | .thrown e => (.error (.userExc e), [td])
    | .ret none => (.ok none, [td])
    | .ret (some c1) =>
      if c1.hasType then
        let r := interceptLoop td fs c1
        (r.1, td :: r.2)
      else (.error .invariantViolation, [td])

/-- `interceptChange` (intercept-utils 58-72): the chain runs under an
untracked scope and the previous tracking slot is restored on every exit
path (the source uses `finally`), exceptions included. -/
def interceptChange {V : Type} (s : GlobalEnv)
    (interceptors : Option (List (Interceptor V))) (c : IValueWillChange V) :
    GlobalEnv × Except InterceptError (Option (IValueWillChange V)) × List (Option Nat) :=
  let prevU := s.trackingDerivation
  let s1 : GlobalEnv := { s with trackingDerivation := none }
  let r := match interceptors with
    | none => (Except.ok (some c), [])
    | some fs => interceptLoop s1.trackingDerivation fs c
  ({ s1 with trackingDerivation := prevU }, r.1, r.2)

/-- `ObservableValue` state: the stored cell (values are abstract ids, so
equality is the source's reference identity), interceptor and listener
lists (`none` when never registered) and the enhancer.  Listeners are
opaque tags whose invocations are recorded as events. -/
structure OV (V : Type) where
  value : V
  interceptors : Option (List (Interceptor V))
  changeListeners : Option (List Nat)
  enhancer : V → V → V

/-- `hasInterceptors` (intercept-utils 44-46). -/
def hasInterceptors {V : Type} (o : OV V) : Bool :=
  match o.interceptors with
  | none => false
  | some l => decide (0 < l.length)

/-- `hasListeners` (listen-utils.ts 9-11). -/
def hasListeners {V : Type} (o : OV V) : Bool :=
  match o.changeListeners with
  | none => false
  | some l => decide (0 < l.length)

/-- `ObservableValue.prepareNewValue` (observablevalue.ts 70-84); `none`
stands for the distinguished `UNCHANGED` sentinel. -/
def prepareNewValue {V : Type} [DecidableEq V] (s : GlobalEnv) (o : OV V) (nv : V) :
    GlobalEnv × Except InterceptError (Option V) :=
  if s.allowStateChanges = false then (s, .error .invariantViolation)
  else if hasInterceptors o then
    let ic := interceptChange s o.interceptors { hasType := true, newValue := nv }
    match ic.2.1 with
    | .error e => (ic.1, .error e)
    | .ok none => (ic.1, .ok none)
    | .ok (some ch) =>
      let nv1 := o.enhancer ch.newValue o.value
      (ic.1, .ok (if nv1 = o.value then none else some nv1))
  else
    let nv1 := o.enhancer nv o.value
    (s, .ok (if nv1 = o.value then none else some nv1))

/-- The change record delivered to listeners (`IValueDidChange`). -/
structure IValueDidChange (V : Type) where
  type : String
  newValue : V
  oldValue : V
deriving DecidableEq, Repr

/-- Events produced by one `set` call: how many times the atom's
`reportChanged` fired (its body lives in the atom base class, outside
the provided sources, so the call itself is the event) and the listener
invocations, each recorded as (listener tag, change record, tracking
slot seen by the call). -/
structure SetEvents (V : Type) where
  reportChangedCalls : Nat
  notifications : List (Nat × IValueDidChange V × Option Nat)
deriving DecidableEq, Repr

/-- `notifyListeners` (listen-utils.ts 23-33).  The null-listeners early
return sits after `untrackedStart` and skips the `untrackedEnd`. -/
def notifyListeners {V : Type} (s : GlobalEnv) (o : OV V) (change : IValueDidChange V) :
    GlobalEnv × List (Nat × IValueDidChange V × Option Nat) :=
  let prevU := s.trackingDerivation
  let s1 : GlobalEnv := { s with trackingDerivation := none }
  match o.changeListeners with
  | none => (s1, [])
  | some ls =>
    ({ s1 with trackingDerivation := prevU },
     ls.map (fun tag => (tag, change, s1.trackingDerivation)))

/-- `ObservableValue.setNewValue` (observablevalue.ts 86-98): assign the
cell, call `reportChanged`, then notify listeners when present. -/
def setNewValue {V : Type} (s : GlobalEnv) (o : OV V) (nv : V) :
    GlobalEnv × OV V × SetEvents V :=
  let oldValue := o.value
  let o1 : OV V := { o with value := nv }
  if hasListeners o1 then
    let n := notifyListeners s o1 { type := "update", newValue := nv, oldValue := oldValue }
    (n.1, o1, { reportChangedCalls := 1, notifications := n.2 })
  else (s, o1, { reportChangedCalls := 1, notifications := [] })

/-- `ObservableValue.set` (observablevalue.ts 52-68); spy reporting is
out of scope.  A fatal `invariant` or an interceptor exception surfaces
as `Except.error`. -/
def ObservableValue.set {V : Type} [DecidableEq V] (s : GlobalEnv) (o : OV V) (nv : V) :
    Except InterceptError (GlobalEnv × OV V × SetEvents V) :=
  match prepareNewValue s o nv with
  | (_, .error e) => .error e
  | (s1, .ok none) => .ok (s1, o, { reportChangedCalls := 0, notifications := [] })
  | (s1, .ok (some v)) => .ok (setNewValue s1 o v)

/-- A quiescent observable record for building concrete test worlds. -/
def obsDefault : ObsData :=
  { diffValue := 0, lastAccessedBy := 0, observers := [], observersIndexes := [],
    lowestObserverState := IDerivationState.UP_TO_DATE, isPendingUnobservation := false,
    isComputed := false, onUnobservedQueue := [] }

/-- A quiescent derivation record for building concrete test worlds. -/
def derivDefault : DerivData :=
  { observing := [], newObserving := none,
    dependenciesState := IDerivationState.UP_TO_DATE, runId := 0 }

/-- A quiescent world for building concrete test inputs. -/
def worldDefault : World :=
  { trackingDerivation := none, runId := 0, inBatch := 0,
    pendingUnobservations := [], pendingReactions := [], allowStateChanges := true,
    obs := fun _ => obsDefault, derivs := fun _ => derivDefault }

/-- Concrete input for the tracking claim: derivation 7 reads 3, 4, 3, 5. -/
def worldC1 : World := worldDefault

/-- Concrete input for the `shouldCompute` claim: derivation 0 is
`POSSIBLY_STALE` and observes 1 (computed), 2 (plain), 3 (computed). -/
def worldC2 : World :=
  { worldDefault with
    obs := fun i => if i = 1 ∨ i = 3 then { obsDefault with isComputed := true } else obsDefault,
    derivs := fun i => if i = 0 then
        { derivDefault with
          observing := [1, 2, 3], dependenciesState := IDerivationState.POSSIBLY_STALE }
      else derivDefault }

/-- A `ComputedGet` whose recomputation of computed 3 transitions the
walking derivation to `STALE`, while every other computed confirms
unchanged. -/
def effStaleC2 : ComputedGet := fun _ oid st =>
  if oid = 3 then (IDerivationState.STALE, false) else (st, false)

/-- Concrete input for `propagateChanged`: observable 0 has observers 1
(`UP_TO_DATE`) and 2 (`POSSIBLY_STALE`). -/
def worldC3 : World :=
  { worldDefault with
    obs := fun i => if i = 0 then { obsDefault with observers := [1, 2] } else obsDefault,
    derivs := fun i => if i = 2 then
        { derivDefault with dependenciesState := IDerivationState.POSSIBLY_STALE }
      else derivDefault }

/-- Concrete input for `propagateChangeConfirmed`: observable 0 has
observers 1 (`POSSIBLY_STALE`) and 2 (`UP_TO_DATE`, i.e. currently
tracking the confirmation). -/
def worldC4 : World :=
  { worldDefault with
    obs := fun i => if i = 0 then { obsDefault with observers := [1, 2] } else obsDefault,
    derivs := fun i => if i = 1 then
        { derivDefault with dependenciesState := IDerivationState.POSSIBLY_STALE }
      else derivDefault }

/-- A global environment with no tracking derivation and changes allowed. -/
def envDefault : GlobalEnv := { trackingDerivation := none, allowStateChanges := true }

/-- Concrete observable value for the `UNCHANGED` short-circuit claim:
no interceptors, no listeners, identity enhancer, stored value 5. -/
def ovC6 : OV Nat :=
  { value := 5, interceptors := none, changeListeners := none, enhancer := fun v _ => v }

/-- Concrete input for the nested-batch case: depth 2, pending work. -/
def worldC7a : World :=
  { worldDefault with
    inBatch := 2, pendingReactions := [4, 5], pendingUnobservations := [9],
    obs := fun i => if i = 9 then { obsDefault with isPendingUnobservation := true } else obsDefault }

/-- Concrete input for the outermost-batch case: depth 1, pending work. -/
def worldC7b : World :=
  { worldDefault with
    inBatch := 1, pendingReactions := [4, 5], pendingUnobservations := [9],
    obs := fun i => if i = 9 then { obsDefault with isPendingUnobservation := true } else obsDefault }

/-- Concrete world for the unobservation-queue counterexample: inside one
outermost batch (`inBatch` 1); observable 1's `onBecomeUnobserved` hook
re-queues observable 0 (the cascade the source's NOTE comment warns
about: a computed clearing its observing set unobserves its
dependencies). -/
def worldC8 : World :=
  { worldDefault with
    inBatch := 1,
    obs := fun i => if i = 1 then { obsDefault with onUnobservedQueue := [0] } else obsDefault }

/-- Pushes of one outermost batch: observable 0 is queued while
unobserved (an untracked read of an unobserved atom), then derivation 7
starts observing it; observable 1 (a computed that reads 0, whose own
last observer was disposed) is queued; then the batch closes.  During
the drain observable 0's flag was already cleared, so observable 1's
hook pushes 0 a second time. -/
def scenarioC8 : List Nat :=
  let q0 := queueForUnobservation worldC8 0
  let s1 := addObserver q0.1 0 7
  let q1 := queueForUnobservation s1 1
  let e := endBatch 10 q1.1
  q0.2 ++ q1.2 ++ (e.2).pushed

/-- Concrete world for the flag-guard witness: observable 4 queued with
its flag armed. -/
def worldC8w : World :=
  { worldDefault with
    pendingUnobservations := [4],
    obs := fun i => if i = 4 then { obsDefault with isPendingUnobservation := true } else obsDefault }

/-- An interceptor that rewrites the proposed value (truthy return with
a `type` field). -/
def itcAdd : Interceptor Nat :=
  fun _ c => .ret (some { hasType := true, newValue := c.newValue + 1 })

/-- An interceptor that rejects the change (falsy return). -/
def itcFalsy : Interceptor Nat := fun _ _ => .ret none

/-- An interceptor whose truthy return lacks the `type` field. -/
def itcNoType : Interceptor Nat :=
  fun _ c => .ret (some { hasType := false, newValue := c.newValue })

/-- Concrete observable value whose interceptor chain rejects every
change at its second entry. -/
def ovC9 : OV Nat :=
  { value := 5, interceptors := some [itcAdd, itcFalsy, itcAdd],
    changeListeners := none, enhancer := fun v _ => v }

/-- A global environment with a tracking derivation installed. -/
def envC10 : GlobalEnv := { trackingDerivation := some 5, allowStateChanges := true }

/-- Concrete observable value with null `changeListeners`. -/
def ovC10 : OV Nat :=
  { value := 0, interceptors := none, changeListeners := none, enhancer := fun v _ => v }

/-- Concrete observable value with two registered listeners. -/
def ovC10b : OV Nat :=
  { value := 0, interceptors := none, changeListeners := some [11, 12],
    enhancer := fun v _ => v }

/-- A concrete change record. -/
def chC10 : IValueDidChange Nat := { type := "update", newValue := 1, oldValue := 0 }

/-! Projection lemmas for the point updates. -/

@[simp] theorem updObs_derivs (s : World) (oid : Nat) (f : ObsData → ObsData) :
    (s.updObs oid f).derivs = s.derivs := rfl

@[simp] theorem updObs_trackingDerivation (s : World) (oid : Nat) (f : ObsData → ObsData) :
    (s.updObs oid f).trackingDerivation = s.trackingDerivation := rfl

@[simp] theorem updObs_runId (s : World) (oid : Nat) (f : ObsData → ObsData) :
    (s.updObs oid f).runId = s.runId := rfl

@[simp] theorem updObs_inBatch (s : World) (oid : Nat) (f : ObsData → ObsData) :
    (s.updObs oid f).inBatch = s.inBatch := rfl

@[simp] theorem updObs_pendingUnobservations (s : World) (oid : Nat) (f : ObsData → ObsData) :
    (s.updObs oid f).pendingUnobservations = s.pendingUnobservations := rfl

@[simp] theorem updObs_pendingReactions (s : World) (oid : Nat) (f : ObsData → ObsData) :
    (s.updObs oid f).pendingReactions = s.pendingReactions := rfl

@[simp] theorem updObs_allowStateChanges (s : World) (oid : Nat) (f : ObsData → ObsData) :
    (s.updObs oid f).allowStateChanges = s.allowStateChanges := rfl

theorem updObs_obs (s : World) (oid : Nat) (f : ObsData → ObsData) (i : Nat) :
    (s.updObs oid f).obs i = if i = oid then f (s.obs i) else s.obs i := rfl

@[simp] theorem updDeriv_obs (s : World) (did : Nat) (f : DerivData → DerivData) :
    (s.updDeriv did f).obs = s.obs := rfl

@[simp] theorem updDeriv_trackingDerivation (s : World) (did : Nat) (f : DerivData → DerivData) :
    (s.updDeriv did f).trackingDerivation = s.trackingDerivation := rfl

@[simp] theorem updDeriv_runId (s : World) (did : Nat) (f : DerivData → DerivData) :
    (s.updDeriv did f).runId = s.runId := rfl

@[simp] theorem updDeriv_inBatch (s : World) (did : Nat) (f : DerivData → DerivData) :
    (s.updDeriv did f).inBatch = s.inBatch := rfl

@[simp] theorem updDeriv_pendingUnobservations (s : World) (did : Nat) (f : DerivData → DerivData) :
    (s.updDeriv did f).pendingUnobservations = s.pendingUnobservations := rfl

@[simp] theorem updDeriv_pendingReactions (s : World) (did : Nat) (f : DerivData → DerivData) :
    (s.updDeriv did f).pendingReactions = s.pendingReactions := rfl

@[simp] theorem updDeriv_allowStateChanges (s : World) (did : Nat) (f : DerivData → DerivData) :
    (s.updDeriv did f).allowStateChanges = s.allowStateChanges := rfl

theorem updDeriv_derivs (s : World) (did : Nat) (f : DerivData → DerivData) (j : Nat) :
    (s.updDeriv did f).derivs j = if j = did then f (s.derivs j) else s.derivs j := rfl

/-- Preservation of a predicate along a left fold. -/
theorem foldl_pres {α β : Type} (P : α → Prop) (f : α → β → α)
    (h : ∀ w b, P w → P (f w b)) : ∀ (l : List β) (w : α), P w → P (l.foldl f w) := by
  intro l
  induction l with
  | nil => intro w hw; exact hw
  | cons b t ih => intro w hw; exact ih (f w b) (h w b hw)

/-- Behaviour of the `propagateChanged` loop over a duplicate-free
observer list: every visited observer ends `STALE`, other derivations are
untouched, the observable heap and the global slots are untouched, and
`onBecomeStale` fires exactly on the observers that were `UP_TO_DATE`. -/
theorem propagateChangedLoop_spec (l : List Nat) :
    ∀ (s : World) (cs : List Nat), l.Nodup →
      (∀ d ∈ l, ((l.foldl propagateChangedStep (s, cs)).1.derivs d).dependenciesState =
        IDerivationState.STALE) ∧
      (∀ d, d ∉ l → (l.foldl propagateChangedStep (s, cs)).1.derivs d = s.derivs d) ∧
      ((l.foldl propagateChangedStep (s, cs)).1.obs = s.obs) ∧
      ((l.foldl propagateChangedStep (s, cs)).1.trackingDerivation = s.trackingDerivation) ∧
      ((l.foldl propagateChangedStep (s, cs)).2 = cs ++ l.filter
        (fun d => decide ((s.derivs d).dependenciesState = IDerivationState.UP_TO_DATE))) := by
  induction l with
  | nil =>
    intro s cs _
    exact ⟨fun d hd => absurd hd (List.not_mem_nil d), fun d _ => rfl, rfl, rfl, by simp⟩
  | cons a t ih =>
    intro s cs hnd
    have hna : a ∉ t := (List.nodup_cons.mp hnd).1
    have hts : t.Nodup := (List.nodup_cons.mp hnd).2
    obtain ⟨h1, h2, h3, h4, h5⟩ :=
      ih (propagateChangedStep (s, cs) a).1 (propagateChangedStep (s, cs) a).2 hts
    have hstep : (a :: t).foldl propagateChangedStep (s, cs)
        = t.foldl propagateChangedStep (propagateChangedStep (s, cs) a) := by
      simp [List.foldl_cons]
    have hd1 : (propagateChangedStep (s, cs) a).1.derivs
        = fun j => if j = a then { s.derivs j with dependenciesState := IDerivationState.STALE }
          else s.derivs j := rfl
    have hdobs : (propagateChangedStep (s, cs) a).1.obs = s.obs := rfl
    have hdtd : (propagateChangedStep (s, cs) a).1.trackingDerivation = s.trackingDerivation := rfl
    refine ⟨?_, ?_, ?_, ?_, ?_⟩
    · intro d hd
      rcases List.mem_cons.mp hd with hda | hdt
      · subst hda
        rw [hstep, h2 d hna, hd1]
        simp
      · rw [hstep]; exact h1 d hdt
    · intro d hd
      have hdna : d ≠ a := fun h => hd (h ▸ List.mem_cons_self a t)
      have hdnt : d ∉ t := fun h => hd (List.mem_cons_of_mem a h)
      rw [hstep, h2 d hdnt, hd1]
      simp [hdna]
    · rw [hstep, h3, hdobs]
    · rw [hstep, h4, hdtd]
    · rw [hstep, h5]
      have hcs : (propagateChangedStep (s, cs) a).2 =
          if (s.derivs a).dependenciesState = IDerivationState.UP_TO_DATE
          then cs ++ [a] else cs := rfl
      have hfil : t.filter (fun d => decide
            (((propagateChangedStep (s, cs) a).1.derivs d).dependenciesState
              = IDerivationState.UP_TO_DATE))
          = t.filter (fun d => decide ((s.derivs d).dependenciesState
              = IDerivationState.UP_TO_DATE)) := by
        refine List.filter_congr ?_
        intro d hdt
        have hdna : d ≠ a := fun h => hna (h ▸ hdt)
        rw [hd1]
        simp [hdna]
      rw [hfil, hcs]
      by_cases hu : (s.derivs a).dependenciesState = IDerivationState.UP_TO_DATE
      · simp [hu, List.filter_cons]
      · simp [hu, List.filter_cons]

/-- C3: `propagateChanged(obs)`: if `obs.lowestObserverState` is `STALE`
the call returns with no observer modified; otherwise it sets
`obs.lowestObserverState` to `STALE`, invokes `onBecomeStale()` exactly
on those observers whose `dependenciesState` was `UP_TO_DATE` when
visited (the returned event list equals the visited observers filtered
to the ones that were `UP_TO_DATE`, each exactly once), and leaves every
observer of `obs` with `dependenciesState = STALE`; derivations that are
not observers are untouched. -/
theorem propagateChanged_spec (s : World) (oid : Nat) :
    ((s.obs oid).lowestObserverState = IDerivationState.STALE →
      propagateChanged s oid = (s, [])) ∧
    ((s.obs oid).lowestObserverState ≠ IDerivationState.STALE →
      (s.obs oid).observers.Nodup →
      (((propagateChanged s oid).1.obs oid).lowestObserverState = IDerivationState.STALE) ∧
      (∀ d ∈ (s.obs oid).observers,
        ((propagateChanged s oid).1.derivs d).dependenciesState = IDerivationState.STALE) ∧
      (∀ d, d ∉ (s.obs oid).observers → (propagateChanged s oid).1.derivs d = s.derivs d) ∧
      ((propagateChanged s oid).2 = (s.obs oid).observers.reverse.filter
        (fun d => decide ((s.derivs d).dependenciesState = IDerivationState.UP_TO_DATE)))) := by
  constructor
  · intro h
    unfold propagateChanged
    rw [if_pos h]
  · intro h hnd
    have hobs : ((s.updObs oid (fun o =>
        { o with lowestObserverState := IDerivationState.STALE })).obs oid).observers
        = (s.obs oid).observers := by
      rw [updObs_obs]; simp
    have hder : (s.updObs oid (fun o =>
        { o with lowestObserverState := IDerivationState.STALE })).derivs = s.derivs := rfl
    have hlos : ((s.updObs oid (fun o =>
        { o with lowestObserverState := IDerivationState.STALE })).obs oid).lowestObserverState
        = IDerivationState.STALE := by
      rw [updObs_obs]; simp
    have hpc : propagateChanged s oid
        = ((s.obs oid).observers.reverse.foldl propagateChangedStep
            (s.updObs oid (fun o => { o with lowestObserverState := IDerivationState.STALE }), [])) := by
      unfold propagateChanged
      rw [if_neg h]
      dsimp only
      rw [hobs]
    obtain ⟨h1, h2, h3, h4, h5⟩ :=
      propagateChangedLoop_spec (s.obs oid).observers.reverse
        (s.updObs oid (fun o => { o with lowestObserverState := IDerivationState.STALE })) []
        (List.nodup_reverse.mpr hnd)
    refine ⟨?_, ?_, ?_, ?_⟩
    · rw [hpc, h3, hlos]
    · intro d hd
      rw [hpc]
      exact h1 d (List.mem_reverse.mpr hd)
    · intro d hd
      rw [hpc, h2 d (fun hh => hd (List.mem_reverse.mp hh)), hder]
    · rw [hpc, h5, hder]
      simp

/-- Witness for C3 at a concrete world: observable 0 has observers 1
(`UP_TO_DATE`) and 2 (`POSSIBLY_STALE`); both end `STALE` and
`onBecomeStale` fires exactly on observer 1. -/
theorem propagateChanged_spec_witness :
    (worldC3.obs 0).lowestObserverState ≠ IDerivationState.STALE ∧
    ((propagateChanged worldC3 0).1.derivs 1).dependenciesState = IDerivationState.STALE ∧
    ((propagateChanged worldC3 0).1.derivs 2).dependenciesState = IDerivationState.STALE ∧
    (propagateChanged worldC3 0).2 = [1] := by
  have h := (propagateChanged_spec worldC3 0).2 (by decide) (by decide)
  exact ⟨by decide, h.2.1 1 (by decide), h.2.1 2 (by decide), h.2.2.2.trans (by decide)⟩

/-- Pointwise congruence for `List.any`. -/
theorem list_any_congr {α : Type} (p q : α → Bool) (l : List α) (h : ∀ a ∈ l, p a = q a) :
    l.any p = l.any q := by
  induction l with
  | nil => rfl
  | cons a t ih =>
    simp only [List.any_cons, h a (List.mem_cons_self a t),
      ih (fun b hb => h b (List.mem_cons_of_mem a hb))]

/-- Behaviour of the `propagateChangeConfirmed` loop: `POSSIBLY_STALE`
observers become `STALE`, all other observer states are untouched, and
the observable's `lowestObserverState` is raised to `UP_TO_DATE` exactly
when some visited observer is `UP_TO_DATE`. -/
theorem propagateChangeConfirmedLoop_spec (oid : Nat) (l : List Nat) :
    ∀ (s : World),
      (∀ d, ((l.foldl (propagateChangeConfirmedStep oid) s).derivs d).dependenciesState =
        if d ∈ l ∧ (s.derivs d).dependenciesState = IDerivationState.POSSIBLY_STALE
        then IDerivationState.STALE else (s.derivs d).dependenciesState) ∧
      (∀ d, d ∉ l → (l.foldl (propagateChangeConfirmedStep oid) s).derivs d = s.derivs d) ∧
      (((l.foldl (propagateChangeConfirmedStep oid) s).obs oid).lowestObserverState =
        if l.any (fun d => decide ((s.derivs d).dependenciesState = IDerivationState.UP_TO_DATE))
        then IDerivationState.UP_TO_DATE else (s.obs oid).lowestObserverState) ∧
      (∀ i, i ≠ oid → (l.foldl (propagateChangeConfirmedStep oid) s).obs i = s.obs i) := by
  induction l with
  | nil =>
    intro s
    exact ⟨fun d => by simp, fun d _ => rfl, by simp, fun i _ => rfl⟩
  | cons a t ih =>
    intro s
    obtain ⟨h1, h2, h3, h4⟩ := ih (propagateChangeConfirmedStep oid s a)
    have hstep : (a :: t).foldl (propagateChangeConfirmedStep oid) s
        = t.foldl (propagateChangeConfirmedStep oid) (propagateChangeConfirmedStep oid s a) := by
      simp [List.foldl_cons]
    by_cases hps : (s.derivs a).dependenciesState = IDerivationState.POSSIBLY_STALE
    · have e1 : propagateChangeConfirmedStep oid s a
          = s.updDeriv a (fun d => { d with dependenciesState := IDerivationState.STALE }) := by
        unfold propagateChangeConfirmedStep
        rw [if_pos hps]
      refine ⟨?_, ?_, ?_, ?_⟩
      · intro d
        rw [hstep, h1 d, e1, updDeriv_derivs]
        by_cases hda : d = a
        · subst hda
          simp [hps]
        · simp [hda, List.mem_cons, hda]
      · intro d hd
        have hda : d ≠ a := fun h => hd (h ▸ List.mem_cons_self a t)
        have hdt : d ∉ t := fun h => hd (List.mem_cons_of_mem a h)
        rw [hstep, h2 d hdt, e1, updDeriv_derivs]
        simp [hda]
      · rw [hstep, h3, e1]
        have hany : t.any (fun d => decide
              (((s.updDeriv a (fun d => { d with dependenciesState := IDerivationState.STALE })).derivs d).dependenciesState
                = IDerivationState.UP_TO_DATE))
            = t.any (fun d => decide ((s.derivs d).dependenciesState = IDerivationState.UP_TO_DATE)) := by
          refine list_any_congr _ _ t ?_
          intro d _
          rw [updDeriv_derivs]
          by_cases hda : d = a
          · subst hda
            simp [hps]
          · simp [hda]
        rw [hany]
        have hpa : (decide ((s.derivs a).dependenciesState = IDerivationState.UP_TO_DATE)) = false := by
          simp [hps]
        simp [List.any_cons, hpa]
      · intro i hi
        rw [hstep, h4 i hi, e1]
        rfl
    · by_cases hup : (s.derivs a).dependenciesState = IDerivationState.UP_TO_DATE
      · have e1 : propagateChangeConfirmedStep oid s a
            = s.updObs oid (fun o => { o with lowestObserverState := IDerivationState.UP_TO_DATE }) := by
          unfold propagateChangeConfirmedStep
          rw [if_neg hps, if_pos hup]
        refine ⟨?_, ?_, ?_, ?_⟩
        · intro d
          rw [hstep, h1 d, e1, updObs_derivs]
          by_cases hda : d = a
          · subst hda
            simp [hup]
          · simp [hda]
        · intro d hd
          have hdt : d ∉ t := fun h => hd (List.mem_cons_of_mem a h)
          rw [hstep, h2 d hdt, e1, updObs_derivs]
        · rw [hstep, h3, e1, updObs_derivs]
          have hlos : ((s.updObs oid (fun o =>
              { o with lowestObserverState := IDerivationState.UP_TO_DATE })).obs oid).lowestObserverState
              = IDerivationState.UP_TO_DATE := by
            rw [updObs_obs]; simp
          rw [hlos]
          have hpa : (decide ((s.derivs a).dependenciesState = IDerivationState.UP_TO_DATE)) = true := by
            simp [hup]
          simp [List.any_cons, hpa]
        · intro i hi
          rw [hstep, h4 i hi, e1, updObs_obs]
          simp [hi]
      · have e1 : propagateChangeConfirmedStep oid s a = s := by
          unfold propagateChangeConfirmedStep
          rw [if_neg hps, if_neg hup]
        refine ⟨?_, ?_, ?_, ?_⟩
        · intro d
          rw [hstep, h1 d, e1]
          by_cases hda : d = a
          · subst hda
            simp [hps]
          · simp [hda]
        · intro d hd
          have hdt : d ∉ t := fun h => hd (List.mem_cons_of_mem a h)
          rw [hstep, h2 d hdt, e1]
        · rw [hstep, h3, e1]
          have hpa : (decide ((s.derivs a).dependenciesState = IDerivationState.UP_TO_DATE)) = false := by
            simp [hup]
          simp [List.any_cons, hpa]
        · intro i hi
          rw [hstep, h4 i hi, e1]

/-- C4: `propagateChangeConfirmed(obs)`: unless `obs.lowestObserverState`
is already `STALE` (in which case nothing is modified), it sets
`obs.lowestObserverState` to `STALE` and, for each observer `d`, a
`POSSIBLY_STALE` state becomes `STALE` while an `UP_TO_DATE` observer
(currently tracking this confirmation) raises `obs.lowestObserverState`
back to `UP_TO_DATE`; consequently, when at least one observer is
`UP_TO_DATE` during the visit, `lowestObserverState` does not end the
call locked at `STALE`. -/
theorem propagateChangeConfirmed_spec (s : World) (oid : Nat) :
    ((s.obs oid).lowestObserverState = IDerivationState.STALE →
      propagateChangeConfirmed s oid = s) ∧
    ((s.obs oid).lowestObserverState ≠ IDerivationState.STALE →
      (∀ d ∈ (s.obs oid).observers,
        ((propagateChangeConfirmed s oid).derivs d).dependenciesState =
          if (s.derivs d).dependenciesState = IDerivationState.POSSIBLY_STALE
          then IDerivationState.STALE else (s.derivs d).dependenciesState) ∧
      (∀ d, d ∉ (s.obs oid).observers →
        (propagateChangeConfirmed s oid).derivs d = s.derivs d) ∧
      (((propagateChangeConfirmed s oid).obs oid).lowestObserverState =
        if (s.obs oid).observers.any (fun d =>
            decide ((s.derivs d).dependenciesState = IDerivationState.UP_TO_DATE))
        then IDerivationState.UP_TO_DATE else IDerivationState.STALE) ∧
      ((s.obs oid).observers.any (fun d =>
          decide ((s.derivs d).dependenciesState = IDerivationState.UP_TO_DATE)) = true →
        ((propagateChangeConfirmed s oid).obs oid).lowestObserverState ≠ IDerivationState.STALE)) := by
  constructor
  · intro h
    unfold propagateChangeConfirmed
    rw [if_pos h]
  · intro h
    have hobs : ((s.updObs oid (fun o =>
        { o with lowestObserverState := IDerivationState.STALE })).obs oid).observers
        = (s.obs oid).observers := by
      rw [updObs_obs]; simp
    have hlos : ((s.updObs oid (fun o =>
        { o with lowestObserverState := IDerivationState.STALE })).obs oid).lowestObserverState
        = IDerivationState.STALE := by
      rw [updObs_obs]; simp
    have hpc : propagateChangeConfirmed s oid
        = ((s.obs oid).observers.reverse.foldl (propagateChangeConfirmedStep oid)
            (s.updObs oid (fun o => { o with lowestObserverState := IDerivationState.STALE }))) := by
      unfold propagateChangeConfirmed
      rw [if_neg h]
      dsimp only
      rw [hobs]
    obtain ⟨h1, h2, h3, h4⟩ :=
      propagateChangeConfirmedLoop_spec oid (s.obs oid).observers.reverse
        (s.updObs oid (fun o => { o with lowestObserverState := IDerivationState.STALE }))
    have hder : (s.updObs oid (fun o =>
        { o with lowestObserverState := IDerivationState.STALE })).derivs = s.derivs := rfl
    have hany : (s.obs oid).observers.reverse.any (fun d => decide
          (((s.updObs oid (fun o => { o with lowestObserverState := IDerivationState.STALE })).derivs d).dependenciesState
            = IDerivationState.UP_TO_DATE))
        = (s.obs oid).observers.any (fun d =>
            decide ((s.derivs d).dependenciesState = IDerivationState.UP_TO_DATE)) := by
      rw [hder, List.any_reverse]
    have hlosFinal : ((propagateChangeConfirmed s oid).obs oid).lowestObserverState =
        if (s.obs oid).observers.any (fun d =>
            decide ((s.derivs d).dependenciesState = IDerivationState.UP_TO_DATE))
        then IDerivationState.UP_TO_DATE else IDerivationState.STALE := by
      rw [hpc, h3, hany, hlos]
    refine ⟨?_, ?_, hlosFinal, ?_⟩
    · intro d hd
      rw [hpc, h1 d, hder]
      simp [List.mem_reverse, hd]
    · intro d hd
      rw [hpc, h2 d (fun hh => hd (List.mem_reverse.mp hh)), hder]
    · intro hone
      rw [hlosFinal, if_pos hone]
      intro hcontra
      exact absurd hcontra (by simp)

/-- Witness for C4 at a concrete world: observable 0 has observers 1
(`POSSIBLY_STALE` → `STALE`) and 2 (`UP_TO_DATE`, currently tracking),
so `lowestObserverState` ends `UP_TO_DATE`, not locked at `STALE`. -/
theorem propagateChangeConfirmed_spec_witness :
    (worldC4.obs 0).lowestObserverState ≠ IDerivationState.STALE ∧
    ((propagateChangeConfirmed worldC4 0).derivs 1).dependenciesState = IDerivationState.STALE ∧
    ((propagateChangeConfirmed worldC4 0).derivs 2).dependenciesState = IDerivationState.UP_TO_DATE ∧
    ((propagateChangeConfirmed worldC4 0).obs 0).lowestObserverState = IDerivationState.UP_TO_DATE ∧
    ((propagateChangeConfirmed worldC4 0).obs 0).lowestObserverState ≠ IDerivationState.STALE := by
  have h := (propagateChangeConfirmed_spec worldC4 0).2 (by decide)
  refine ⟨by decide, (h.1 1 (by decide)).trans (by decide), (h.1 2 (by decide)).trans (by decide),
    h.2.2.1.trans (by decide), h.2.2.2 (by decide)⟩

/-- `queueForUnobservation` touches only the queued observable's flag and
the pending list. -/
theorem queueForUnobservation_preserve (s : World) (oid : Nat) :
    (queueForUnobservation s oid).1.inBatch = s.inBatch ∧
    (queueForUnobservation s oid).1.pendingReactions = s.pendingReactions ∧
    (queueForUnobservation s oid).1.trackingDerivation = s.trackingDerivation ∧
    (queueForUnobservation s oid).1.derivs = s.derivs ∧
    (queueForUnobservation s oid).1.runId = s.runId ∧
    (queueForUnobservation s oid).1.allowStateChanges = s.allowStateChanges := by
  unfold queueForUnobservation
  split
  · exact ⟨rfl, rfl, rfl, rfl, rfl, rfl⟩
  · exact ⟨rfl, rfl, rfl, rfl, rfl, rfl⟩

/-- `addObserver` touches only the observable heap. -/
theorem addObserver_preserve (s : World) (oid did : Nat) :
    (addObserver s oid did).derivs = s.derivs ∧
    (addObserver s oid did).trackingDerivation = s.trackingDerivation ∧
    (addObserver s oid did).pendingReactions = s.pendingReactions ∧
    (addObserver s oid did).inBatch = s.inBatch := by
  unfold addObserver
  dsimp only
  split
  · split
    · exact ⟨rfl, rfl, rfl, rfl⟩
    · exact ⟨rfl, rfl, rfl, rfl⟩
  · split
    · exact ⟨rfl, rfl, rfl, rfl⟩
    · exact ⟨rfl, rfl, rfl, rfl⟩

/-- `removeObserver` touches only the observable heap and the pending
unobservation queue. -/
theorem removeObserver_preserve (s : World) (oid did : Nat) :
    (removeObserver s oid did).derivs = s.derivs ∧
    (removeObserver s oid did).trackingDerivation = s.trackingDerivation ∧
    (removeObserver s oid did).pendingReactions = s.pendingReactions ∧
    (removeObserver s oid did).inBatch = s.inBatch := by
  unfold removeObserver
  split
  · obtain ⟨q1, q2, q3, q4, _, _⟩ := queueForUnobservation_preserve
      (s.updObs oid (fun o => { o with observers := [] })) oid
    exact ⟨q4, q3, q2, q1⟩
  · split
    · exact ⟨rfl, rfl, rfl, rfl⟩
    · split
      · exact ⟨rfl, rfl, rfl, rfl⟩
      · exact ⟨rfl, rfl, rfl, rfl⟩

/-- The hook fold inside `drainStep` preserves everything but the
observable heap and the pending list. -/
theorem queueFold_preserve (l : List Nat) :
    ∀ (a : World × List Nat),
      ((l.foldl (fun acc x =>
          let q := queueForUnobservation acc.1 x
          (q.1, acc.2 ++ q.2)) a).1.inBatch = a.1.inBatch) ∧
      ((l.foldl (fun acc x =>
          let q := queueForUnobservation acc.1 x
          (q.1, acc.2 ++ q.2)) a).1.pendingReactions = a.1.pendingReactions) ∧
      ((l.foldl (fun acc x =>
          let q := queueForUnobservation acc.1 x
          (q.1, acc.2 ++ q.2)) a).1.trackingDerivation = a.1.trackingDerivation) := by
  induction l with
  | nil => intro a; exact ⟨rfl, rfl, rfl⟩
  | cons x t ih =>
    intro a
    obtain ⟨i1, i2, i3⟩ :=
      ih ((queueForUnobservation a.1 x).1, a.2 ++ (queueForUnobservation a.1 x).2)
    obtain ⟨q1, q2, q3, _, _, _⟩ := queueForUnobservation_preserve a.1 x
    rw [List.foldl_cons]
    exact ⟨i1.trans q1, i2.trans q2, i3.trans q3⟩

/-- `drainStep` preserves the batch depth, the reaction queue and the
tracking slot. -/
theorem drainStep_preserve (s : World) (oid : Nat) :
    (drainStep s oid).1.inBatch = s.inBatch ∧
    (drainStep s oid).1.pendingReactions = s.pendingReactions ∧
    (drainStep s oid).1.trackingDerivation = s.trackingDerivation := by
  unfold drainStep
  dsimp only
  split
  · obtain ⟨q1, q2, q3⟩ := queueFold_preserve
      ((((s.updObs oid (fun o => { o with isPendingUnobservation := false }))).obs oid).onUnobservedQueue)
      ((s.updObs oid (fun o => { o with isPendingUnobservation := false })), [])
    exact ⟨q1, q2, q3⟩
  · exact ⟨rfl, rfl, rfl⟩

/-- The drain loop of `endBatch` preserves the batch depth, the reaction
queue and the tracking slot. -/
theorem endBatchDrain_preserve (fuel : Nat) :
    ∀ (s : World) (i : Nat),
      (endBatchDrain fuel s i).1.inBatch = s.inBatch ∧
      (endBatchDrain fuel s i).1.pendingReactions = s.pendingReactions ∧
      (endBatchDrain fuel s i).1.trackingDerivation = s.trackingDerivation := by
  induction fuel with
  | zero => intro s i; exact ⟨rfl, rfl, rfl⟩
  | succ n ih =>
    intro s i
    unfold endBatchDrain
    cases hg : s.pendingUnobservations.get? i with
    | none => exact ⟨rfl, rfl, rfl⟩
    | some oid =>
      obtain ⟨d1, d2, d3⟩ := drainStep_preserve s oid
      obtain ⟨i1, i2, i3⟩ := ih (drainStep s oid).1 (i + 1)
      exact ⟨i1.trans d1, i2.trans d2, i3.trans d3⟩

/-- C7: `startBatch` increments `globalState.inBatch`; `endBatch`
decrements it, and pending reactions run and `pendingUnobservations` is
drained only on the call that brings `inBatch` to 0: an `endBatch`
closing a nested batch (depth still positive afterwards) runs no
reaction and drains nothing, so work queued inside nested batches is
processed only when the outermost batch closes. -/
theorem batch_spec (s : World) (fuel : Nat) :
    (startBatch s = { s with inBatch := s.inBatch + 1 }) ∧
    (2 ≤ s.inBatch →
      endBatch fuel s = ({ s with inBatch := s.inBatch - 1 },
        { reactionsRun := [], fired := [], pushed := [] })) ∧
    (s.inBatch = 1 →
      (endBatch fuel s).2.reactionsRun = s.pendingReactions ∧
      (endBatch fuel s).1.pendingReactions = [] ∧
      (endBatch fuel s).1.pendingUnobservations = [] ∧
      (endBatch fuel s).1.inBatch = 0) := by
  refine ⟨rfl, ?_, ?_⟩
  · intro h2
    have hne : ¬(s.inBatch - 1 = 0) := by omega
    unfold endBatch
    dsimp only
    rw [if_neg hne]
  · intro h1
    have hz : s.inBatch - 1 = 0 := by omega
    have hrun : endBatch fuel s
        = ({ (endBatchDrain fuel { s with inBatch := s.inBatch - 1, pendingReactions := [] } 0).1
              with pendingUnobservations := [] },
           { reactionsRun := s.pendingReactions,
             fired := (endBatchDrain fuel { s with inBatch := s.inBatch - 1, pendingReactions := [] } 0).2.1,
             pushed := (endBatchDrain fuel { s with inBatch := s.inBatch - 1, pendingReactions := [] } 0).2.2 }) := by
      unfold endBatch
      dsimp only
      rw [if_pos hz]
      rfl
    obtain ⟨p1, p2, _⟩ :=
      endBatchDrain_preserve fuel { s with inBatch := s.inBatch - 1, pendingReactions := [] } 0
    refine ⟨by rw [hrun], ?_, by rw [hrun], ?_⟩
    · rw [hrun]
      exact p2
    · rw [hrun]
      show (endBatchDrain fuel { s with inBatch := s.inBatch - 1, pendingReactions := [] } 0).1.inBatch = 0
      rw [p1]
      exact hz

/-- Witness for C7: closing the inner of two nested batches runs nothing
and drains nothing; closing the outermost batch runs the two pending
reactions and empties both queues. -/
theorem batch_spec_witness :
    (2 ≤ worldC7a.inBatch ∧
      endBatch 5 worldC7a = ({ worldC7a with inBatch := 1 },
        { reactionsRun := [], fired := [], pushed := [] })) ∧
    (worldC7b.inBatch = 1 ∧
      (endBatch 5 worldC7b).2.reactionsRun = [4, 5] ∧
      (endBatch 5 worldC7b).1.pendingReactions = [] ∧
      (endBatch 5 worldC7b).1.pendingUnobservations = [] ∧
      (endBatch 5 worldC7b).1.inBatch = 0) := by
  have ha := (batch_spec worldC7a 5).2.1 (by decide)
  have hb := (batch_spec worldC7b 5).2.2 (by decide)
  exact ⟨⟨by decide, ha.trans rfl⟩,
    ⟨by decide, hb.1.trans (by decide), hb.2.1, hb.2.2.1, hb.2.2.2⟩⟩

/-- C8 counterexample: the claim "every observable is pushed onto
`pendingUnobservations` at most once per outermost batch" fails.  In the
concrete batch of `scenarioC8`, observable 0 is queued while unobserved,
gains observer 7, and observable 1 is queued; during the `endBatch`
drain, observable 0's `isPendingUnobservation` flag is cleared before
observable 1 is processed, so observable 1's `onBecomeUnobserved` hook
(which re-queues 0, the cascade the source's NOTE comment documents)
pushes observable 0 a second time within the same outermost batch: it is
pushed twice in total. -/
theorem queueForUnobservation_atMostOnce_cex : scenarioC8.count 0 = 2 := by decide

/-- C8 (amended): `queueForUnobservation` is a no-op while the
observable's `isPendingUnobservation` flag is armed, and a push keeps the
pending list duplicate-free whenever every queued entry's flag is still
armed — at-most-once holds per arming of the flag.  (Per outermost batch
it does not hold: the `endBatch` drain clears the flag before firing the
hook, see the counterexample.) -/
theorem queueForUnobservation_spec (s : World) (x : Nat) :
    ((s.obs x).isPendingUnobservation = true → queueForUnobservation s x = (s, [])) ∧
    (s.pendingUnobservations.Nodup →
      (∀ o ∈ s.pendingUnobservations, (s.obs o).isPendingUnobservation = true) →
      (queueForUnobservation s x).1.pendingUnobservations.Nodup ∧
      (∀ o ∈ (queueForUnobservation s x).1.pendingUnobservations,
        ((queueForUnobservation s x).1.obs o).isPendingUnobservation = true)) := by
  constructor
  · intro h
    unfold queueForUnobservation
    rw [if_pos h]
  · intro hnd hflag
    by_cases h : (s.obs x).isPendingUnobservation = true
    · have hq : queueForUnobservation s x = (s, []) := by
        unfold queueForUnobservation
        rw [if_pos h]
      rw [hq]
      exact ⟨hnd, hflag⟩
    · have hq : queueForUnobservation s x
          = ({ (s.updObs x (fun o => { o with isPendingUnobservation := true })) with
                pendingUnobservations := s.pendingUnobservations ++ [x] }, [x]) := by
        unfold queueForUnobservation
        rw [if_neg h]
        rfl
      have hx : x ∉ s.pendingUnobservations := fun hmem => h (hflag x hmem)
      constructor
      · rw [hq]
        show (s.pendingUnobservations ++ [x]).Nodup
        simp [List.nodup_append, hnd, hx]
      · intro o ho
        rw [hq] at ho ⊢
        show ((s.updObs x (fun o => { o with isPendingUnobservation := true })).obs o).isPendingUnobservation = true
        rw [updObs_obs]
        rcases List.mem_append.mp ho with h1 | h2
        · by_cases hox : o = x
          · simp [hox]
          · simp only [if_neg hox]
            exact hflag o h1
        · have hox : o = x := by simpa using h2
          simp [hox]

/-- Witness for C8's amended theorem: pushing fresh observable 6 keeps
the armed queue `[4]` duplicate-free, and re-queueing 6 while its flag is
armed is a no-op. -/
theorem queueForUnobservation_spec_witness :
    worldC8w.pendingUnobservations.Nodup ∧
    (queueForUnobservation worldC8w 6).1.pendingUnobservations.Nodup ∧
    (queueForUnobservation worldC8w 6).1.pendingUnobservations = [4, 6] ∧
    queueForUnobservation (queueForUnobservation worldC8w 6).1 6
      = ((queueForUnobservation worldC8w 6).1, []) := by
  have h2 := (queueForUnobservation_spec worldC8w 6).2 (by decide) (by decide)
  have h1 := (queueForUnobservation_spec (queueForUnobservation worldC8w 6).1 6).1 (by decide)
  exact ⟨by decide, h2.1, by decide, h1⟩

/-! First-occurrence dedup: the spec-side theory for C1. -/

theorem dedupFirst_cons (a : Nat) (l : List Nat) :
    dedupFirst (a :: l) = a :: dedupFirst (l.filter (fun b => decide (b ≠ a))) := by
  rw [dedupFirst]

theorem dedupFirst_nil : dedupFirst [] = [] := by
  rw [dedupFirst]

/-- Membership in the first-occurrence dedup. -/
theorem dedupFirst_mem_aux : ∀ (n : Nat) (l : List Nat), l.length ≤ n →
    ∀ x, (x ∈ dedupFirst l ↔ x ∈ l) := by
  intro n
  induction n with
  | zero =>
    intro l hl x
    have he : l = [] := List.length_eq_zero.mp (Nat.le_zero.mp hl)
    subst he
    rw [dedupFirst_nil]
  | succ n ih =>
    intro l hl x
    cases l with
    | nil => rw [dedupFirst_nil]
    | cons a t =>
      rw [dedupFirst_cons]
      have hlen : (t.filter (fun b => decide (b ≠ a))).length ≤ n :=
        le_trans (List.length_filter_le _ _) (Nat.le_of_succ_le_succ hl)
      constructor
      · intro hx
        rcases List.mem_cons.mp hx with h | h
        · exact h ▸ List.mem_cons_self a t
        · exact List.mem_cons_of_mem a (List.mem_filter.mp ((ih _ hlen x).mp h)).1
      · intro hx
        rcases List.mem_cons.mp hx with h | h
        · exact h ▸ List.mem_cons_self a _
        · by_cases hxa : x = a
          · exact hxa ▸ List.mem_cons_self a _
          · exact List.mem_cons_of_mem a
              ((ih _ hlen x).mpr (List.mem_filter.mpr ⟨h, by simp [hxa]⟩))

theorem dedupFirst_mem (l : List Nat) (x : Nat) : x ∈ dedupFirst l ↔ x ∈ l :=
  dedupFirst_mem_aux l.length l (le_refl _) x

/-- The first-occurrence dedup is duplicate-free. -/
theorem dedupFirst_nodup_aux : ∀ (n : Nat) (l : List Nat), l.length ≤ n →
    (dedupFirst l).Nodup := by
  intro n
  induction n with
  | zero =>
    intro l hl
    have he : l = [] := List.length_eq_zero.mp (Nat.le_zero.mp hl)
    subst he
    rw [dedupFirst_nil]
    exact List.nodup_nil
  | succ n ih =>
    intro l hl
    cases l with
    | nil => rw [dedupFirst_nil]; exact List.nodup_nil
    | cons a t =>
      rw [dedupFirst_cons]
      have hlen : (t.filter (fun b => decide (b ≠ a))).length ≤ n :=
        le_trans (List.length_filter_le _ _) (Nat.le_of_succ_le_succ hl)
      refine List.nodup_cons.mpr ⟨?_, ih _ hlen⟩
      intro hmem
      have := (List.mem_filter.mp ((dedupFirst_mem _ a).mp hmem)).2
      simp at this

theorem dedupFirst_nodup (l : List Nat) : (dedupFirst l).Nodup :=
  dedupFirst_nodup_aux l.length l (le_refl _)

/-- The first-occurrence dedup is a subsequence of the original list. -/
theorem dedupFirst_sublist_aux : ∀ (n : Nat) (l : List Nat), l.length ≤ n →
    (dedupFirst l).Sublist l := by
  intro n
  induction n with
  | zero =>
    intro l hl
    have he : l = [] := List.length_eq_zero.mp (Nat.le_zero.mp hl)
    subst he
    rw [dedupFirst_nil]
  | succ n ih =>
    intro l hl
    cases l with
    | nil => rw [dedupFirst_nil]
    | cons a t =>
      rw [dedupFirst_cons]
      have hlen : (t.filter (fun b => decide (b ≠ a))).length ≤ n :=
        le_trans (List.length_filter_le _ _) (Nat.le_of_succ_le_succ hl)
      exact List.Sublist.cons₂ a ((ih _ hlen).trans (List.filter_sublist t))

theorem dedupFirst_sublist (l : List Nat) : (dedupFirst l).Sublist l :=
  dedupFirst_sublist_aux l.length l (le_refl _)

/-- Removing the occurrences of `a` preserves relative first-occurrence
order among the remaining elements. -/
theorem filter_indexOf_lt (a : Nat) : ∀ (l : List Nat) (x y : Nat),
    x ∈ l.filter (fun b => decide (b ≠ a)) → y ≠ a →
    (l.filter (fun b => decide (b ≠ a))).indexOf x
      < (l.filter (fun b => decide (b ≠ a))).indexOf y →
    l.indexOf x < l.indexOf y := by
  intro l
  induction l with
  | nil =>
    intro x y hx
    simp at hx
  | cons c t ih =>
    intro x y hx hy hlt
    by_cases hca : c = a
    · have hfil : (c :: t).filter (fun b => decide (b ≠ a))
          = t.filter (fun b => decide (b ≠ a)) := by
        simp [List.filter_cons, hca]
      rw [hfil] at hx hlt
      have hxa : x ≠ a := by
        have := (List.mem_filter.mp hx).2
        simpa using this
      have hxc : c ≠ x := fun h => hxa (hca ▸ h.symm)
      have hyc : c ≠ y := fun h => hy (hca ▸ h.symm)
      rw [List.indexOf_cons_ne t hxc, List.indexOf_cons_ne t hyc]
      exact Nat.succ_lt_succ (ih x y hx hy hlt)
    · have hfil : (c :: t).filter (fun b => decide (b ≠ a))
          = c :: t.filter (fun b => decide (b ≠ a)) := by
        simp [List.filter_cons, hca]
      rw [hfil] at hx hlt
      by_cases hxc : x = c
      · subst hxc
        have hyx : y ≠ x := by
          intro h
          subst h
          exact Nat.lt_irrefl _ hlt
        have hyx2 : x ≠ y := fun h => hyx h.symm
        rw [List.indexOf_cons_self] at hlt ⊢
        rw [List.indexOf_cons_ne t hyx2]
        exact Nat.succ_pos _
      · have hcx : c ≠ x := fun h => hxc h.symm
        rw [List.indexOf_cons_ne _ hcx] at hlt
        by_cases hyc : y = c
        · subst hyc
          rw [List.indexOf_cons_self] at hlt
          exact absurd hlt (Nat.not_lt_zero _)
        · have hcy : c ≠ y := fun h => hyc h.symm
          rw [List.indexOf_cons_ne _ hcy] at hlt
          have hxt : x ∈ t.filter (fun b => decide (b ≠ a)) := by
            rcases List.mem_cons.mp hx with h | h
            · exact absurd h hxc
            · exact h
          rw [List.indexOf_cons_ne t hcx, List.indexOf_cons_ne t hcy]
          exact Nat.succ_lt_succ (ih x y hxt hy (Nat.lt_of_succ_lt_succ hlt))

/-- The first-occurrence dedup is sorted by position of first occurrence
in the original list. -/
theorem dedupFirst_pairwise_aux : ∀ (n : Nat) (l : List Nat), l.length ≤ n →
    (dedupFirst l).Pairwise (fun x y => l.indexOf x < l.indexOf y) := by
  intro n
  induction n with
  | zero =>
    intro l hl
    have he : l = [] := List.length_eq_zero.mp (Nat.le_zero.mp hl)
    subst he
    rw [dedupFirst_nil]
    exact List.Pairwise.nil
  | succ n ih =>
    intro l hl
    cases l with
    | nil => rw [dedupFirst_nil]; exact List.Pairwise.nil
    | cons a t =>
      rw [dedupFirst_cons]
      have hlen : (t.filter (fun b => decide (b ≠ a))).length ≤ n :=
        le_trans (List.length_filter_le _ _) (Nat.le_of_succ_le_succ hl)
      refine List.Pairwise.cons ?_ ?_
      · intro y hy
        have hyf := (dedupFirst_mem _ y).mp hy
        have hya : y ≠ a := by
          have := (List.mem_filter.mp hyf).2
          simpa using this
        have hay : a ≠ y := fun h => hya h.symm
        rw [List.indexOf_cons_self, List.indexOf_cons_ne t hay]
        exact Nat.succ_pos _
      · refine List.Pairwise.imp_of_mem ?_ (ih _ hlen)
        intro x y hx hy hxy
        have hxf := (dedupFirst_mem _ x).mp hx
        have hyf := (dedupFirst_mem _ y).mp hy
        have hxa : x ≠ a := by
          have := (List.mem_filter.mp hxf).2
          simpa using this
        have hya : y ≠ a := by
          have := (List.mem_filter.mp hyf).2
          simpa using this
        have hax : a ≠ x := fun h => hxa h.symm
        have hay : a ≠ y := fun h => hya h.symm
        rw [List.indexOf_cons_ne t hax, List.indexOf_cons_ne t hay]
        exact Nat.succ_lt_succ (filter_indexOf_lt a t x y hxf hya hxy)

theorem dedupFirst_pairwise (l : List Nat) :
    (dedupFirst l).Pairwise (fun x y => l.indexOf x < l.indexOf y) :=
  dedupFirst_pairwise_aux l.length l (le_refl _)

theorem dedupAcc_cons (acc : List Nat) (a : Nat) (l : List Nat) :
    dedupAcc acc (a :: l) = dedupAcc (if a ∈ acc then acc else acc ++ [a]) l := rfl

/-- The accumulator form of the dedup agrees with the recursive form. -/
theorem dedupAcc_eq : ∀ (l acc : List Nat),
    dedupAcc acc l = acc ++ dedupFirst (l.filter (fun b => decide (b ∉ acc))) := by
  intro l
  induction l with
  | nil =>
    intro acc
    simp [dedupAcc, dedupFirst_nil]
  | cons a t ih =>
    intro acc
    rw [dedupAcc_cons]
    by_cases ha : a ∈ acc
    · rw [if_pos ha, ih acc]
      have hfil : (a :: t).filter (fun b => decide (b ∉ acc))
          = t.filter (fun b => decide (b ∉ acc)) := by
        simp [List.filter_cons, ha]
      rw [hfil]
    · rw [if_neg ha, ih (acc ++ [a])]
      have hfil : (a :: t).filter (fun b => decide (b ∉ acc))
          = a :: t.filter (fun b => decide (b ∉ acc)) := by
        simp [List.filter_cons, ha]
      rw [hfil, dedupFirst_cons, List.filter_filter]
      have hpred : t.filter (fun b => decide (b ∉ acc ++ [a]))
          = t.filter (fun b => decide (b ≠ a) && decide (b ∉ acc)) := by
        refine List.filter_congr ?_
        intro b _
        by_cases h1 : b ∈ acc <;> by_cases h2 : b = a <;> simp [h1, h2]
      rw [hpred]
      simp [List.append_assoc]

/-- The dedup of the whole read list, starting from the empty
accumulator. -/
theorem dedupAcc_nil (l : List Nat) : dedupAcc [] l = dedupFirst l := by
  rw [dedupAcc_eq]
  have hfil : l.filter (fun b => decide (b ∉ ([] : List Nat))) = l := by
    refine List.filter_eq_self.mpr ?_
    intro b _
    simp
  rw [hfil]
  simp

/-- Record eta for `DerivData` updates that write a field's current
value. -/
theorem DerivData.eta_dependenciesState (d : DerivData) (v : IDerivationState)
    (h : d.dependenciesState = v) : { d with dependenciesState := v } = d := by
  cases d
  subst h
  rfl

theorem DerivData.eta_newObserving (d : DerivData) (v : Option (List Nat))
    (h : d.newObserving = v) : { d with newObserving := v } = d := by
  cases d
  subst h
  rfl

/-- The `lowestObserverState` reset loop of `changeDependenciesStateTo0`
touches nothing but the visited observables' `lowestObserverState`. -/
theorem markLowestFold_preserve (l : List Nat) :
    ∀ (s : World),
      ((l.foldl markLowestUpToDate s).derivs = s.derivs) ∧
      ((l.foldl markLowestUpToDate s).trackingDerivation = s.trackingDerivation) ∧
      ((l.foldl markLowestUpToDate s).runId = s.runId) ∧
      ((l.foldl markLowestUpToDate s).pendingUnobservations = s.pendingUnobservations) ∧
      (∀ i, ((l.foldl markLowestUpToDate s).obs i).diffValue = (s.obs i).diffValue ∧
            ((l.foldl markLowestUpToDate s).obs i).lastAccessedBy = (s.obs i).lastAccessedBy ∧
            ((l.foldl markLowestUpToDate s).obs i).observers = (s.obs i).observers) ∧
      (∀ i, i ∈ l → ((l.foldl markLowestUpToDate s).obs i).lowestObserverState
        = IDerivationState.UP_TO_DATE) := by
  induction l with
  | nil =>
    intro s
    exact ⟨rfl, rfl, rfl, rfl, fun i => ⟨rfl, rfl, rfl⟩, fun i hi => absurd hi (List.not_mem_nil i)⟩
  | cons a t ih =>
    intro s
    obtain ⟨h1, h2, h3, h4, h5, h6⟩ := ih (markLowestUpToDate s a)
    have ha : markLowestUpToDate s a
        = s.updObs a (fun o => { o with lowestObserverState := IDerivationState.UP_TO_DATE }) := rfl
    rw [List.foldl_cons]
    refine ⟨h1.trans rfl, h2.trans rfl, h3.trans rfl, h4.trans rfl, ?_, ?_⟩
    · intro i
      obtain ⟨p1, p2, p3⟩ := h5 i
      rw [ha] at p1 p2 p3
      rw [updObs_obs] at p1 p2 p3
      by_cases hia : i = a
      · subst hia
        simp at p1 p2 p3
        exact ⟨p1, p2, p3⟩
      · simp only [if_neg hia] at p1 p2 p3
        exact ⟨p1, p2, p3⟩
    · intro i hi
      rcases List.mem_cons.mp hi with hia | hit
      · subst hia
        by_cases hmem : i ∈ t
        · exact h6 i hmem
        · -- untouched by the rest of the fold: read the value set by this step
          obtain ⟨p1, p2, p3⟩ := h5 i
          -- need the lowestObserverState; prove untouched via a dedicated fold argument
          have hkeep : ∀ (l2 : List Nat) (w : World),
              (w.obs i).lowestObserverState = IDerivationState.UP_TO_DATE →
              ((l2.foldl markLowestUpToDate w).obs i).lowestObserverState
                = IDerivationState.UP_TO_DATE := by
            intro l2
            induction l2 with
            | nil => intro w hw; exact hw
            | cons b t2 ih2 =>
              intro w hw
              rw [List.foldl_cons]
              refine ih2 (markLowestUpToDate w b) ?_
              show ((w.updObs b (fun o =>
                { o with lowestObserverState := IDerivationState.UP_TO_DATE })).obs i).lowestObserverState
                = IDerivationState.UP_TO_DATE
              rw [updObs_obs]
              by_cases hib : i = b
              · simp [hib]
              · simp only [if_neg hib]
                exact hw
          refine hkeep t (markLowestUpToDate s i) ?_
          rw [ha]
          show ((s.updObs i (fun o =>
            { o with lowestObserverState := IDerivationState.UP_TO_DATE })).obs i).lowestObserverState
            = IDerivationState.UP_TO_DATE
          rw [updObs_obs]
          simp
      · exact h6 i hit

/-- What `changeDependenciesStateTo0` does and what it leaves alone. -/
theorem changeDependenciesStateTo0_spec (s : World) (did : Nat) :
    ((changeDependenciesStateTo0 s did).trackingDerivation = s.trackingDerivation) ∧
    ((changeDependenciesStateTo0 s did).runId = s.runId) ∧
    ((changeDependenciesStateTo0 s did).pendingUnobservations = s.pendingUnobservations) ∧
    (∀ i, ((changeDependenciesStateTo0 s did).obs i).diffValue = (s.obs i).diffValue ∧
          ((changeDependenciesStateTo0 s did).obs i).lastAccessedBy = (s.obs i).lastAccessedBy ∧
          ((changeDependenciesStateTo0 s did).obs i).observers = (s.obs i).observers) ∧
    ((changeDependenciesStateTo0 s did).derivs did
      = { s.derivs did with dependenciesState := IDerivationState.UP_TO_DATE }) ∧
    (∀ j, j ≠ did → (changeDependenciesStateTo0 s did).derivs j = s.derivs j) ∧
    ((s.derivs did).dependenciesState ≠ IDerivationState.UP_TO_DATE →
      ∀ oid ∈ (s.derivs did).observing,
        ((changeDependenciesStateTo0 s did).obs oid).lowestObserverState
          = IDerivationState.UP_TO_DATE) := by
  by_cases h : (s.derivs did).dependenciesState = IDerivationState.UP_TO_DATE
  · have he : changeDependenciesStateTo0 s did = s := by
      unfold changeDependenciesStateTo0
      rw [if_pos h]
    rw [he]
    exact ⟨rfl, rfl, rfl, fun i => ⟨rfl, rfl, rfl⟩,
      (DerivData.eta_dependenciesState _ _ h).symm, fun j _ => rfl, fun hc => absurd h hc⟩
  · have he : changeDependenciesStateTo0 s did
        = ((s.updDeriv did (fun d =>
            { d with dependenciesState := IDerivationState.UP_TO_DATE })).derivs did).observing.reverse.foldl
          markLowestUpToDate
          (s.updDeriv did (fun d => { d with dependenciesState := IDerivationState.UP_TO_DATE })) := by
      unfold changeDependenciesStateTo0
      rw [if_neg h]
    have hobserving : ((s.updDeriv did (fun d =>
        { d with dependenciesState := IDerivationState.UP_TO_DATE })).derivs did).observing
        = (s.derivs did).observing := by
      rw [updDeriv_derivs]
      simp
    obtain ⟨m1, m2, m3, m4, m5, m6⟩ := markLowestFold_preserve
      ((s.updDeriv did (fun d =>
        { d with dependenciesState := IDerivationState.UP_TO_DATE })).derivs did).observing.reverse
      (s.updDeriv did (fun d => { d with dependenciesState := IDerivationState.UP_TO_DATE }))
    refine ⟨?_, ?_, ?_, ?_, ?_, ?_, ?_⟩
    · rw [he, m2]; rfl
    · rw [he, m3]; rfl
    · rw [he, m4]; rfl
    · intro i
      obtain ⟨p1, p2, p3⟩ := m5 i
      rw [he]
      exact ⟨p1.trans rfl, p2.trans rfl, p3.trans rfl⟩
    · rw [he, m1, updDeriv_derivs]
      simp
    · intro j hj
      rw [he, m1, updDeriv_derivs]
      simp [hj]
    · intro _ oid hoid
      rw [he]
      refine m6 oid ?_
      rw [hobserving]
      exact List.mem_reverse.mpr hoid

/-- Effect of a tracked run's reads on the world: `newObserving` collects
the first occurrence of every read (the fresh run id recorded in
`lastAccessedBy` dedupes repeats), and nothing else changes. -/
theorem trackReads_spec (did R : Nat) :
    ∀ (reads : List Nat) (s : World) (acc : List Nat),
      s.trackingDerivation = some did →
      (s.derivs did).runId = R →
      (s.derivs did).newObserving = some acc →
      (∀ i ∈ reads, ((s.obs i).lastAccessedBy = R ↔ i ∈ acc)) →
      (trackReads s reads).trackingDerivation = some did ∧
      (trackReads s reads).runId = s.runId ∧
      (trackReads s reads).pendingUnobservations = s.pendingUnobservations ∧
      ((trackReads s reads).derivs did
        = { s.derivs did with newObserving := some (dedupAcc acc reads) }) ∧
      (∀ j, j ≠ did → (trackReads s reads).derivs j = s.derivs j) ∧
      (∀ i, ((trackReads s reads).obs i).diffValue = (s.obs i).diffValue ∧
            ((trackReads s reads).obs i).observers = (s.obs i).observers) := by
  intro reads
  induction reads with
  | nil =>
    intro s acc h1 _ h3 _
    exact ⟨h1, rfl, rfl, (DerivData.eta_newObserving _ _ h3).symm,
      fun j _ => rfl, fun i => ⟨rfl, rfl⟩⟩
  | cons a rest ih =>
    intro s acc h1 h2 h3 h4
    have hstep : trackReads s (a :: rest) = trackReads (reportObserved s a) rest := rfl
    by_cases hc : a ∈ acc
    · have hla : (s.obs a).lastAccessedBy = R := (h4 a (List.mem_cons_self a rest)).mpr hc
      have e1 : reportObserved s a = s := by
        unfold reportObserved
        rw [h1]
        dsimp only
        rw [h2, hla]
        simp
      rw [hstep, e1]
      obtain ⟨g1, g2, g3, g4, g5, g6⟩ := ih s acc h1 h2 h3
        (fun i hi => h4 i (List.mem_cons_of_mem a hi))
      rw [dedupAcc_cons, if_pos hc]
      exact ⟨g1, g2, g3, g4, g5, g6⟩
    · have hla : (s.obs a).lastAccessedBy ≠ R :=
        fun hh => hc ((h4 a (List.mem_cons_self a rest)).mp hh)
      have hcond : (s.derivs did).runId ≠ (s.obs a).lastAccessedBy := by
        rw [h2]
        exact fun hh => hla hh.symm
      have e1 : reportObserved s a
          = (s.updObs a (fun o =>
              { o with lastAccessedBy := (s.derivs did).runId })).updDeriv did
              (fun d => { d with newObserving := some ((d.newObserving.getD []) ++ [a]) }) := by
        unfold reportObserved
        rw [h1]
        dsimp only
        rw [if_pos hcond]
      set s1 := (s.updObs a (fun o =>
          { o with lastAccessedBy := (s.derivs did).runId })).updDeriv did
          (fun d => { d with newObserving := some ((d.newObserving.getD []) ++ [a]) }) with hs1
      have hd2 : s1.derivs did = { s.derivs did with newObserving := some (acc ++ [a]) } := by
        rw [hs1, updDeriv_derivs]
        rw [if_pos rfl]
        show { (s.derivs did) with
            newObserving := some (((s.derivs did).newObserving.getD []) ++ [a]) }
          = { s.derivs did with newObserving := some (acc ++ [a]) }
        rw [h3]
        rfl
      have f1 : s1.trackingDerivation = some did := h1
      have f4 : (s1.derivs did).runId = R := by
        rw [hd2]
        exact h2
      have f3 : (s1.derivs did).newObserving = some (acc ++ [a]) := by
        rw [hd2]
      have hmm : ∀ i ∈ rest, ((s1.obs i).lastAccessedBy = R ↔ i ∈ acc ++ [a]) := by
        intro i hi
        have ho : s1.obs i = if i = a then
            { s.obs i with lastAccessedBy := (s.derivs did).runId } else s.obs i := by
          rw [hs1, updDeriv_obs, updObs_obs]
        by_cases hia : i = a
        · rw [ho, if_pos hia]
          constructor
          · intro _
            exact List.mem_append.mpr (Or.inr (by simp [hia]))
          · intro _
            show (s.derivs did).runId = R
            exact h2
        · rw [ho, if_neg hia]
          rw [h4 i (List.mem_cons_of_mem a hi)]
          constructor
          · intro hacc
            exact List.mem_append.mpr (Or.inl hacc)
          · intro happ
            rcases List.mem_append.mp happ with hl | hr
            · exact hl
            · exact absurd (by simpa using hr) hia
      obtain ⟨g1, g2, g3, g4, g5, g6⟩ := ih s1 (acc ++ [a]) f1 f4 f3 hmm
      rw [hstep, e1]
      refine ⟨g1, g2.trans rfl, g3.trans rfl, ?_, ?_, ?_⟩
      · rw [g4, hd2, dedupAcc_cons, if_neg hc]
      · intro j hj
        rw [g5 j hj, hs1, updDeriv_derivs, if_neg hj, updObs_derivs]
      · intro i
        obtain ⟨p1, p2⟩ := g6 i
        have ho : s1.obs i = if i = a then
            { s.obs i with lastAccessedBy := (s.derivs did).runId } else s.obs i := by
          rw [hs1, updDeriv_obs, updObs_obs]
        by_cases hia : i = a
        · rw [ho, if_pos hia] at p1 p2
          exact ⟨p1, p2⟩
        · rw [ho, if_neg hia] at p1 p2
          exact ⟨p1, p2⟩

/-- Pass A leaves the derivation heap and the tracking slot alone. -/
theorem bindPassAFold_preserve (l : List Nat) (s : World) (out : List Nat) :
    ((l.foldl bindPassAStep (s, out)).1.derivs = s.derivs) ∧
    ((l.foldl bindPassAStep (s, out)).1.trackingDerivation = s.trackingDerivation) := by
  refine foldl_pres (fun acc : World × List Nat =>
    acc.1.derivs = s.derivs ∧ acc.1.trackingDerivation = s.trackingDerivation)
    bindPassAStep ?_ l (s, out) ⟨rfl, rfl⟩
  intro acc dep hacc
  unfold bindPassAStep
  split
  · exact ⟨hacc.1, hacc.2⟩
  · exact hacc

theorem bindPassA_preserve (s : World) (l : List Nat) :
    ((bindPassA s l).1.derivs = s.derivs) ∧
    ((bindPassA s l).1.trackingDerivation = s.trackingDerivation) := by
  unfold bindPassA
  exact bindPassAFold_preserve l s []

/-- On a duplicate-free list of observables whose `diffValue` is 0, pass
A keeps every entry, in order. -/
theorem bindPassAFold_out (l : List Nat) :
    ∀ (s : World) (out : List Nat), l.Nodup → (∀ i ∈ l, (s.obs i).diffValue = 0) →
      (l.foldl bindPassAStep (s, out)).2 = out ++ l := by
  induction l with
  | nil =>
    intro s out _ _
    simp
  | cons a t ih =>
    intro s out hnd hdiff
    have ha : (s.obs a).diffValue = 0 := hdiff a (List.mem_cons_self a t)
    have hstep : bindPassAStep (s, out) a
        = (s.updObs a (fun o => { o with diffValue := 1 }), out ++ [a]) := by
      unfold bindPassAStep
      rw [if_pos ha]
    rw [List.foldl_cons, hstep]
    have hdiff2 : ∀ i ∈ t,
        ((s.updObs a (fun o => { o with diffValue := 1 })).obs i).diffValue = 0 := by
      intro i hi
      have hia : i ≠ a := fun h => (List.nodup_cons.mp hnd).1 (h ▸ hi)
      rw [updObs_obs, if_neg hia]
      exact hdiff i (List.mem_cons_of_mem a hi)
    rw [ih _ (out ++ [a]) (List.nodup_cons.mp hnd).2 hdiff2]
    simp

theorem bindPassA_out (s : World) (l : List Nat) (hnd : l.Nodup)
    (hdiff : ∀ i ∈ l, (s.obs i).diffValue = 0) : (bindPassA s l).2 = l := by
  unfold bindPassA
  rw [bindPassAFold_out l s [] hnd hdiff]
  simp

/-- Pass B leaves the derivation heap and the tracking slot alone. -/
theorem bindPassB_preserve (prev : List Nat) (did : Nat) (s : World) :
    (bindPassB s prev did).derivs = s.derivs ∧
    (bindPassB s prev did).trackingDerivation = s.trackingDerivation := by
  unfold bindPassB
  refine foldl_pres (fun w : World =>
    w.derivs = s.derivs ∧ w.trackingDerivation = s.trackingDerivation)
    (bindPassBStep did) ?_ prev.reverse s ⟨rfl, rfl⟩
  intro w dep hw
  unfold bindPassBStep
  dsimp only
  split
  · obtain ⟨r1, r2, _, _⟩ := removeObserver_preserve w dep did
    exact ⟨r1.trans hw.1, r2.trans hw.2⟩
  · exact hw

/-- Pass C leaves the derivation heap and the tracking slot alone. -/
theorem bindPassC_preserve (neu : List Nat) (did : Nat) (s : World) :
    (bindPassC s neu did).derivs = s.derivs ∧
    (bindPassC s neu did).trackingDerivation = s.trackingDerivation := by
  unfold bindPassC
  refine foldl_pres (fun w : World =>
    w.derivs = s.derivs ∧ w.trackingDerivation = s.trackingDerivation)
    (bindPassCStep did) ?_ neu.reverse s ⟨rfl, rfl⟩
  intro w dep hw
  unfold bindPassCStep
  split
  · obtain ⟨r1, r2, _, _⟩ := addObserver_preserve
      (w.updObs dep (fun o => { o with diffValue := 0 })) dep did
    exact ⟨r1.trans hw.1, r2.trans hw.2⟩
  · exact hw

/-- `bindDependencies` installs the deduped new observing list, nulls
`newObserving` and restores nothing else on the derivation; the tracking
slot is untouched. -/
theorem bindDependencies_spec (s : World) (did : Nat)
    (hnd : ((s.derivs did).newObserving.getD []).Nodup)
    (hdiff : ∀ i ∈ (s.derivs did).newObserving.getD [], (s.obs i).diffValue = 0) :
    (bindDependencies s did).derivs did
      = { s.derivs did with
          observing := (s.derivs did).newObserving.getD [], newObserving := none } ∧
    (bindDependencies s did).trackingDerivation = s.trackingDerivation := by
  unfold bindDependencies
  dsimp only
  set s1 := s.updDeriv did (fun d => { d with newObserving := none }) with hs1
  set N := (s.derivs did).newObserving.getD [] with hN
  set pa := bindPassA s1 N with hpa
  set s2 := pa.1.updDeriv did (fun d => { d with observing := pa.2 }) with hs2
  set s3 := bindPassB s2 (s.derivs did).observing did with hs3
  have c1 : (bindPassC s3 pa.2 did).derivs = s3.derivs := (bindPassC_preserve pa.2 did s3).1
  have c2 : (bindPassC s3 pa.2 did).trackingDerivation = s3.trackingDerivation :=
    (bindPassC_preserve pa.2 did s3).2
  have b1 : s3.derivs = s2.derivs := (bindPassB_preserve (s.derivs did).observing did s2).1
  have b2 : s3.trackingDerivation = s2.trackingDerivation :=
    (bindPassB_preserve (s.derivs did).observing did s2).2
  have a1 : pa.1.derivs = s1.derivs := (bindPassA_preserve s1 N).1
  have a2 : pa.1.trackingDerivation = s1.trackingDerivation := (bindPassA_preserve s1 N).2
  have hout : pa.2 = N := by
    rw [hpa]
    exact bindPassA_out s1 N hnd (fun i hi => hdiff i hi)
  constructor
  · rw [c1, b1, hs2, updDeriv_derivs, if_pos rfl, a1, hout, hs1, updDeriv_derivs, if_pos rfl]
  · rw [c2, b2, hs2, updDeriv_trackingDerivation, a2, hs1, updDeriv_trackingDerivation]

/-- `bindDependencies` never touches the tracking slot (no assumptions
needed). -/
theorem bindDependencies_trackingDerivation (s : World) (did : Nat) :
    (bindDependencies s did).trackingDerivation = s.trackingDerivation := by
  unfold bindDependencies
  dsimp only
  set s1 := s.updDeriv did (fun d => { d with newObserving := none }) with hs1
  set N := (s.derivs did).newObserving.getD [] with hN
  set pa := bindPassA s1 N with hpa
  set s2 := pa.1.updDeriv did (fun d => { d with observing := pa.2 }) with hs2
  set s3 := bindPassB s2 (s.derivs did).observing did with hs3
  rw [(bindPassC_preserve pa.2 did s3).2, (bindPassB_preserve (s.derivs did).observing did s2).2,
    hs2, updDeriv_trackingDerivation, (bindPassA_preserve s1 N).2, hs1,
    updDeriv_trackingDerivation]

/-- `bindDependencies` always nulls the derivation's `newObserving` (no
assumptions needed). -/
theorem bindDependencies_newObserving (s : World) (did : Nat) :
    ((bindDependencies s did).derivs did).newObserving = none := by
  unfold bindDependencies
  dsimp only
  set s1 := s.updDeriv did (fun d => { d with newObserving := none }) with hs1
  set N := (s.derivs did).newObserving.getD [] with hN
  set pa := bindPassA s1 N with hpa
  set s2 := pa.1.updDeriv did (fun d => { d with observing := pa.2 }) with hs2
  set s3 := bindPassB s2 (s.derivs did).observing did with hs3
  rw [(bindPassC_preserve pa.2 did s3).1, (bindPassB_preserve (s.derivs did).observing did s2).1,
    hs2, updDeriv_derivs, if_pos rfl]
  show (pa.1.derivs did).newObserving = none
  rw [(bindPassA_preserve s1 N).1, hs1, updDeriv_derivs, if_pos rfl]

/-- C1: after `trackDerivedFunction(d, f, ctx)` returns, `d.observing`
contains each observable reported during that run exactly once
(duplicate-free), ordered by the position of its first `reportObserved`
call, and `d.newObserving` is null.  The run of `f` is abstracted by the
list of observables it reads.  The hypotheses are the entry invariants of
a run: the fresh run id `s.runId + 1` does not yet appear in any read
observable's `lastAccessedBy`, and the read observables' scratch
`diffValue`s are 0 (invariant I6). -/
theorem trackDerivedFunction_observing_spec (α : Type) (s : World) (did : Nat)
    (reads : List Nat) (outcome : Except Nat α)
    (hFresh : ∀ i ∈ reads, (s.obs i).lastAccessedBy ≠ s.runId + 1)
    (hDiff : ∀ i ∈ reads, (s.obs i).diffValue = 0) :
    (((trackDerivedFunction s did reads outcome).1.derivs did).observing = dedupFirst reads) ∧
    (((trackDerivedFunction s did reads outcome).1.derivs did).newObserving = none) ∧
    (((trackDerivedFunction s did reads outcome).1.derivs did).observing.Nodup) ∧
    (∀ a, a ∈ ((trackDerivedFunction s did reads outcome).1.derivs did).observing ↔ a ∈ reads) ∧
    (((trackDerivedFunction s did reads outcome).1.derivs did).observing.Sublist reads) ∧
    (((trackDerivedFunction s did reads outcome).1.derivs did).observing.Pairwise
      (fun a b => reads.indexOf a < reads.indexOf b)) := by
  obtain ⟨z1, z2, z3, z4, z5, z6, z7⟩ := changeDependenciesStateTo0_spec s did
  unfold trackDerivedFunction
  dsimp only
  set s1 := changeDependenciesStateTo0 s did with hs1
  set s2 := s1.updDeriv did (fun d => { d with newObserving := some [] }) with hs2
  set s3 : World := { s2 with runId := s2.runId + 1 } with hs3
  set s4 := s3.updDeriv did (fun d => { d with runId := s3.runId }) with hs4
  set s5 : World := { s4 with trackingDerivation := some did } with hs5
  have e2 : s2.derivs did = { s1.derivs did with newObserving := some [] } := by
    rw [hs2, updDeriv_derivs, if_pos rfl]
  have e4 : s4.derivs did = { s2.derivs did with runId := s3.runId } := by
    rw [hs4, updDeriv_derivs, if_pos rfl]
  have hr2 : s2.runId = s.runId := z2
  have htd5 : s5.trackingDerivation = some did := rfl
  have hrun5 : (s5.derivs did).runId = s.runId + 1 := by
    show (s4.derivs did).runId = s.runId + 1
    rw [e4]
    show s3.runId = s.runId + 1
    show s2.runId + 1 = s.runId + 1
    rw [hr2]
  have hnobs5 : (s5.derivs did).newObserving = some [] := by
    show (s4.derivs did).newObserving = some []
    rw [e4]
    show (s2.derivs did).newObserving = some []
    rw [e2]
  have hobs5 : ∀ i, (s5.obs i).lastAccessedBy = (s.obs i).lastAccessedBy := by
    intro i
    show (s1.obs i).lastAccessedBy = (s.obs i).lastAccessedBy
    exact (z4 i).2.1
  have hdiff5 : ∀ i, (s5.obs i).diffValue = (s.obs i).diffValue := by
    intro i
    show (s1.obs i).diffValue = (s.obs i).diffValue
    exact (z4 i).1
  have h4 : ∀ i ∈ reads, ((s5.obs i).lastAccessedBy = s.runId + 1 ↔ i ∈ ([] : List Nat)) := by
    intro i hi
    rw [hobs5 i]
    constructor
    · intro h
      exact absurd h (hFresh i hi)
    · intro h
      exact absurd h (List.not_mem_nil i)
  obtain ⟨g1, g2, g3, g4, g5, g6⟩ :=
    trackReads_spec did (s.runId + 1) reads s5 [] htd5 hrun5 hnobs5 h4
  set s6 := trackReads s5 reads with hs6
  set s7 : World := { s6 with trackingDerivation := s4.trackingDerivation } with hs7
  have hs7d : s7.derivs did = { s5.derivs did with newObserving := some (dedupAcc [] reads) } := g4
  have hgetD : (s7.derivs did).newObserving.getD [] = dedupFirst reads := by
    rw [hs7d]
    show (some (dedupAcc [] reads)).getD [] = dedupFirst reads
    rw [dedupAcc_nil]
    rfl
  have hbnd : ((s7.derivs did).newObserving.getD []).Nodup := by
    rw [hgetD]
    exact dedupFirst_nodup reads
  have hbdf : ∀ i ∈ (s7.derivs did).newObserving.getD [], (s7.obs i).diffValue = 0 := by
    intro i hi
    rw [hgetD] at hi
    have hir : i ∈ reads := (dedupFirst_mem reads i).mp hi
    have hd6 : (s6.obs i).diffValue = (s5.obs i).diffValue := (g6 i).1
    show (s6.obs i).diffValue = 0
    rw [hd6, hdiff5 i]
    exact hDiff i hir
  obtain ⟨bd1, bd2⟩ := bindDependencies_spec s7 did hbnd hbdf
  have hobsv : ((bindDependencies s7 did).derivs did).observing = dedupFirst reads := by
    rw [bd1]
    exact hgetD
  have hnobsv : ((bindDependencies s7 did).derivs did).newObserving = none := by
    rw [bd1]
  refine ⟨hobsv, hnobsv, ?_, ?_, ?_, ?_⟩
  · rw [hobsv]
    exact dedupFirst_nodup reads
  · intro a
    rw [hobsv]
    exact dedupFirst_mem reads a
  · rw [hobsv]
    exact dedupFirst_sublist reads
  · rw [hobsv]
    exact dedupFirst_pairwise reads

/-- Witness for C1 at a concrete run: derivation 7 reads 3, 4, 3, 5 in a
fresh world; its observing set becomes `[3, 4, 5]` and `newObserving` is
nulled. -/
theorem trackDerivedFunction_observing_spec_witness :
    (((trackDerivedFunction worldC1 7 [3, 4, 3, 5] (Except.ok 0)).1.derivs 7).observing
      = [3, 4, 5]) ∧
    (((trackDerivedFunction worldC1 7 [3, 4, 3, 5] (Except.ok 0)).1.derivs 7).newObserving
      = none) := by
  have h := trackDerivedFunction_observing_spec Nat worldC1 7 [3, 4, 3, 5] (Except.ok 0)
    (by decide) (by decide)
  refine ⟨h.1.trans ?_, h.2.1⟩
  rw [dedupFirst_cons]
  norm_num
  rw [dedupFirst_cons]
  norm_num
  rw [dedupFirst_cons]
  norm_num
  rw [dedupFirst_nil]

/-- C5: when `f` throws during `trackDerivedFunction(d, f, ctx)`, the
exception does not propagate out: the call returns the `CaughtException`
sentinel wrapping the cause, the previous `trackingDerivation` is
restored, `bindDependencies(d)` still runs — the resulting world is the
same as for a non-throwing run with the same reads — and the run's
bookkeeping completes (`newObserving` is nulled). -/
theorem trackDerivedFunction_caught_spec (α : Type) (s : World) (did : Nat)
    (reads : List Nat) (e : Nat) (v : α) :
    ((trackDerivedFunction s did reads (Except.error e : Except Nat α)).2
      = TrackResult.caught e) ∧
    ((trackDerivedFunction s did reads (Except.error e : Except Nat α)).1.trackingDerivation
      = s.trackingDerivation) ∧
    ((trackDerivedFunction s did reads (Except.error e : Except Nat α)).1
      = (trackDerivedFunction s did reads (Except.ok v)).1) ∧
    (((trackDerivedFunction s did reads (Except.error e : Except Nat α)).1.derivs did).newObserving
      = none) := by
  obtain ⟨z1, _, _, _, _, _, _⟩ := changeDependenciesStateTo0_spec s did
  refine ⟨rfl, ?_, rfl, ?_⟩
  · unfold trackDerivedFunction
    dsimp only
    rw [bindDependencies_trackingDerivation]
    show (changeDependenciesStateTo0 s did).trackingDerivation = s.trackingDerivation
    exact z1
  · unfold trackDerivedFunction
    dsimp only
    rw [bindDependencies_newObserving]

/-- A point update that writes back the current record is the identity. -/
theorem World.eta_updDeriv (s : World) (did : Nat) (f : DerivData → DerivData)
    (h : f (s.derivs did) = s.derivs did) : s.updDeriv did f = s := by
  have hfun : (fun i => if i = did then f (s.derivs i) else s.derivs i) = s.derivs := by
    funext i
    by_cases hi : i = did
    · subst hi
      rw [if_pos rfl, h]
    · rw [if_neg hi]
  show { s with derivs := fun i => if i = did then f (s.derivs i) else s.derivs i } = s
  rw [hfun]

/-- The `POSSIBLY_STALE` walk when every computed dependency confirms
unchanged: every computed entry is visited in stored order, the
derivation's state never reaches `STALE`, and the walk falls through to
`changeDependenciesStateTo0` with result false. -/
theorem shouldComputeWalk_noop (eff : ComputedGet) (did : Nat)
    (heff : ∀ td oid st, eff td oid st = (st, false)) :
    ∀ (l : List Nat) (s : World),
      (s.derivs did).dependenciesState = IDerivationState.POSSIBLY_STALE →
      shouldComputeWalk eff did s l
        = (changeDependenciesStateTo0 s did, false,
           (l.filter (fun oid => (s.obs oid).isComputed)).map
             (fun oid => (oid, s.trackingDerivation))) := by
  intro l
  induction l with
  | nil =>
    intro s _
    simp [shouldComputeWalk]
  | cons oid rest ih =>
    intro s hps
    by_cases hic : (s.obs oid).isComputed = true
    · have heq : eff s.trackingDerivation oid (s.derivs did).dependenciesState
          = ((s.derivs did).dependenciesState, false) := heff _ _ _
      have hupds : s.updDeriv did (fun d =>
          { d with dependenciesState :=
            (eff s.trackingDerivation oid (s.derivs did).dependenciesState).1 }) = s := by
        refine World.eta_updDeriv s did _ ?_
        rw [heq]
      simp only [shouldComputeWalk]
      rw [if_pos hic]
      rw [heq] at hupds ⊢
      dsimp only
      rw [hupds, hps]
      rw [if_neg (by decide : ¬(IDerivationState.POSSIBLY_STALE = IDerivationState.STALE))]
      rw [ih s hps]
      simp [List.filter_cons, hic]
    · simp only [shouldComputeWalk]
      rw [if_neg hic, ih s hps]
      have hfc : (oid :: rest).filter (fun o => (s.obs o).isComputed)
          = rest.filter (fun o => (s.obs o).isComputed) := by
        simp [List.filter_cons, hic]
      rw [hfc]

/-- The `POSSIBLY_STALE` walk when a computed dependency `k` transitions
the derivation to `STALE`: the walk stops right there with result true,
visiting only the computed entries before `k` and `k` itself; entries
after `k` are not visited and `changeDependenciesStateTo0` does not
run. -/
theorem shouldComputeWalk_stop (eff : ComputedGet) (did k : Nat) (post : List Nat)
    (heffk : ∀ td st, eff td k st = (IDerivationState.STALE, false)) :
    ∀ (pre : List Nat) (s : World),
      (∀ oid ∈ pre, (s.obs oid).isComputed = true → ∀ td st, eff td oid st = (st, false)) →
      (s.derivs did).dependenciesState = IDerivationState.POSSIBLY_STALE →
      (s.obs k).isComputed = true →
      shouldComputeWalk eff did s (pre ++ k :: post)
        = (s.updDeriv did (fun d => { d with dependenciesState := IDerivationState.STALE }),
           true,
           (pre.filter (fun oid => (s.obs oid).isComputed)).map
             (fun oid => (oid, s.trackingDerivation)) ++ [(k, s.trackingDerivation)]) := by
  intro pre
  induction pre with
  | nil =>
    intro s _ _ hk
    simp only [List.nil_append, shouldComputeWalk]
    rw [if_pos hk]
    rw [heffk]
    dsimp only
    rw [if_neg (by decide : ¬(false = true))]
    rw [if_pos]
    · simp
    · rw [updDeriv_derivs, if_pos rfl]
  | cons oidp pre2 ih =>
    intro s hpre hps hk
    have hstep : (oidp :: pre2) ++ k :: post = oidp :: (pre2 ++ k :: post) := rfl
    rw [hstep]
    by_cases hic : (s.obs oidp).isComputed = true
    · have heq : eff s.trackingDerivation oidp (s.derivs did).dependenciesState
          = ((s.derivs did).dependenciesState, false) :=
        hpre oidp (List.mem_cons_self oidp pre2) hic _ _
      have hupds : s.updDeriv did (fun d =>
          { d with dependenciesState :=
            (eff s.trackingDerivation oidp (s.derivs did).dependenciesState).1 }) = s := by
        refine World.eta_updDeriv s did _ ?_
        rw [heq]
      simp only [shouldComputeWalk]
      rw [if_pos hic]
      rw [heq] at hupds ⊢
      dsimp only
      rw [hupds, hps]
      rw [if_neg (by decide : ¬(IDerivationState.POSSIBLY_STALE = IDerivationState.STALE))]
      rw [ih s (fun o ho => hpre o (List.mem_cons_of_mem oidp ho)) hps hk]
      simp [List.filter_cons, hic]
    · simp only [shouldComputeWalk]
      rw [if_neg hic, ih s (fun o ho => hpre o (List.mem_cons_of_mem oidp ho)) hps hk]
      have hfc : (oidp :: pre2).filter (fun o => (s.obs o).isComputed)
          = pre2.filter (fun o => (s.obs o).isComputed) := by
        simp [List.filter_cons, hic]
      rw [hfc]

/-- C2: `shouldCompute(d)` returns false when `dependenciesState` is
`UP_TO_DATE` and true when it is `NOT_TRACKING` or `STALE` (no state
touched in either case).  When it is `POSSIBLY_STALE` it walks
`d.observing` in stored first-read order under an untracked scope,
calling `get()` on exactly the computed dependencies (each call sees a
null tracking slot): if every computed dependency confirms unchanged the
walk completes, `changeDependenciesStateTo0` sets the derivation
`UP_TO_DATE` (and the observed `lowestObserverState`s to `UP_TO_DATE`)
and the result is false; if some computed dependency `k` transitions the
derivation to `STALE`, the walk stops right there with result true,
visiting only the computed dependencies up to and including `k`, and the
derivation stays `STALE`.  The tracking slot is restored on exit in both
cases. -/
theorem shouldCompute_spec (eff : ComputedGet) (s : World) (did : Nat) :
    ((s.derivs did).dependenciesState = IDerivationState.UP_TO_DATE →
      shouldCompute eff s did = (s, false, [])) ∧
    ((s.derivs did).dependenciesState = IDerivationState.NOT_TRACKING ∨
        (s.derivs did).dependenciesState = IDerivationState.STALE →
      shouldCompute eff s did = (s, true, [])) ∧
    ((s.derivs did).dependenciesState = IDerivationState.POSSIBLY_STALE →
      (∀ td oid st, eff td oid st = (st, false)) →
      ((shouldCompute eff s did).2.1 = false) ∧
      ((shouldCompute eff s did).2.2
        = ((s.derivs did).observing.filter (fun oid => (s.obs oid).isComputed)).map
            (fun oid => (oid, (none : Option Nat)))) ∧
      (((shouldCompute eff s did).1.derivs did).dependenciesState
        = IDerivationState.UP_TO_DATE) ∧
      (∀ oid ∈ (s.derivs did).observing,
        ((shouldCompute eff s did).1.obs oid).lowestObserverState
          = IDerivationState.UP_TO_DATE) ∧
      ((shouldCompute eff s did).1.trackingDerivation = s.trackingDerivation)) ∧
    (∀ (pre post : List Nat) (k : Nat),
      (s.derivs did).dependenciesState = IDerivationState.POSSIBLY_STALE →
      (s.derivs did).observing = pre ++ k :: post →
      (s.obs k).isComputed = true →
      (∀ oid ∈ pre, (s.obs oid).isComputed = true → ∀ td st, eff td oid st = (st, false)) →
      (∀ td st, eff td k st = (IDerivationState.STALE, false)) →
      ((shouldCompute eff s did).2.1 = true) ∧
      ((shouldCompute eff s did).2.2
        = (pre.filter (fun oid => (s.obs oid).isComputed)).map
            (fun oid => (oid, (none : Option Nat))) ++ [(k, (none : Option Nat))]) ∧
      (((shouldCompute eff s did).1.derivs did).dependenciesState = IDerivationState.STALE) ∧
      ((shouldCompute eff s did).1.trackingDerivation = s.trackingDerivation) ∧
      (∀ i, (shouldCompute eff s did).1.obs i = s.obs i)) := by
  refine ⟨?_, ?_, ?_, ?_⟩
  · intro h
    unfold shouldCompute
    rw [h]
  · intro h
    rcases h with h | h <;>
    · unfold shouldCompute
      rw [h]
  · intro hps heff
    have hm : shouldCompute eff s did
        = (untrackedEnd (shouldComputeWalk eff did { s with trackingDerivation := none }
            (({ s with trackingDerivation := none } : World).derivs did).observing).1
            s.trackingDerivation,
           (shouldComputeWalk eff did { s with trackingDerivation := none }
            (({ s with trackingDerivation := none } : World).derivs did).observing).2.1,
           (shouldComputeWalk eff did { s with trackingDerivation := none }
            (({ s with trackingDerivation := none } : World).derivs did).observing).2.2) := by
      unfold shouldCompute
      rw [hps]
      rfl
    have hps2 : (({ s with trackingDerivation := none } : World).derivs did).dependenciesState
        = IDerivationState.POSSIBLY_STALE := hps
    have hw := shouldComputeWalk_noop eff did heff
      (({ s with trackingDerivation := none } : World).derivs did).observing
      { s with trackingDerivation := none } hps2
    obtain ⟨z1, z2, z3, z4, z5, z6, z7⟩ :=
      changeDependenciesStateTo0_spec ({ s with trackingDerivation := none } : World) did
    refine ⟨?_, ?_, ?_, ?_, ?_⟩
    · rw [hm, hw]
    · rw [hm, hw]
    · rw [hm, hw]
      show ((changeDependenciesStateTo0 { s with trackingDerivation := none } did).derivs
        did).dependenciesState = IDerivationState.UP_TO_DATE
      rw [z5]
    · intro oid hoid
      rw [hm, hw]
      show ((changeDependenciesStateTo0 { s with trackingDerivation := none } did).obs
        oid).lowestObserverState = IDerivationState.UP_TO_DATE
      refine z7 ?_ oid hoid
      rw [hps2]
      decide
    · rw [hm, hw]
      rfl
  · intro pre post k hps hobserving hk hpre heffk
    have hm : shouldCompute eff s did
        = (untrackedEnd (shouldComputeWalk eff did { s with trackingDerivation := none }
            (({ s with trackingDerivation := none } : World).derivs did).observing).1
            s.trackingDerivation,
           (shouldComputeWalk eff did { s with trackingDerivation := none }
            (({ s with trackingDerivation := none } : World).derivs did).observing).2.1,
           (shouldComputeWalk eff did { s with trackingDerivation := none }
            (({ s with trackingDerivation := none } : World).derivs did).observing).2.2) := by
      unfold shouldCompute
      rw [hps]
      rfl
    have hobserving2 : (({ s with trackingDerivation := none } : World).derivs did).observing
        = pre ++ k :: post := hobserving
    have hw := shouldComputeWalk_stop eff did k post heffk pre
      { s with trackingDerivation := none }
      (fun o ho hic => hpre o ho hic) hps hk
    rw [hobserving2] at hm
    refine ⟨?_, ?_, ?_, ?_, ?_⟩
    · rw [hm, hw]
    · rw [hm, hw]
    · rw [hm, hw]
      show ((({ s with trackingDerivation := none } : World).updDeriv did (fun d =>
        { d with dependenciesState := IDerivationState.STALE })).derivs did).dependenciesState
        = IDerivationState.STALE
      rw [updDeriv_derivs, if_pos rfl]
    · rw [hm, hw]
      rfl
    · intro i
      rw [hm, hw]
      rfl

/-- Witness for C2 at a concrete world: derivation 0 is `POSSIBLY_STALE`
observing 1 (computed, confirms unchanged), 2 (plain) and 3 (computed,
stales the derivation); the walk calls get() on 1 and 3 under a null
tracking slot, returns true and leaves the derivation `STALE`. -/
theorem shouldCompute_spec_witness :
    ((shouldCompute effStaleC2 worldC2 0).2.1 = true) ∧
    ((shouldCompute effStaleC2 worldC2 0).2.2 = [(1, none), (3, none)]) ∧
    (((shouldCompute effStaleC2 worldC2 0).1.derivs 0).dependenciesState
      = IDerivationState.STALE) := by
  have h := (shouldCompute_spec effStaleC2 worldC2 0).2.2.2 [1, 2] [] 3
    (by decide) (by decide) (by decide)
    (by
      intro oid hoid hic td st
      rcases List.mem_cons.mp hoid with h1 | h2
      · subst h1
        simp [effStaleC2]
      · have h2b : oid = 2 := by simpa using h2
        subst h2b
        exact absurd hic (by decide))
    (by
      intro td st
      simp [effStaleC2])
  exact ⟨h.1, h.2.1.trans (by decide), h.2.2.1⟩

/-- The interceptor loop stops at the first falsy return: the prefix of
well-behaved interceptors runs in order, the falsy one runs, the rest do
not, and every call sees the given tracking slot. -/
theorem interceptLoop_falsy {V : Type} (td : Option Nat) (fk : Interceptor V)
    (hfk : ∀ td2 ch, fk td2 ch = InterceptorOutcome.ret none) (post : List (Interceptor V)) :
    ∀ (pre : List (Interceptor V)) (c : IValueWillChange V),
      (∀ f ∈ pre, ∀ td2 ch, ∃ ch2,
        f td2 ch = InterceptorOutcome.ret (some ch2) ∧ ch2.hasType = true) →
      interceptLoop td (pre ++ fk :: post) c
        = (Except.ok none, List.replicate (pre.length + 1) td) := by
  intro pre
  induction pre with
  | nil =>
    intro c _
    simp only [List.nil_append, interceptLoop, hfk]
    rfl
  | cons f fs ih =>
    intro c hpre
    obtain ⟨ch2, hret, htype⟩ := hpre f (List.mem_cons_self f fs) td c
    have hstep : (f :: fs) ++ fk :: post = f :: (fs ++ fk :: post) := rfl
    rw [hstep]
    simp only [interceptLoop, hret]
    rw [if_pos htype]
    rw [ih ch2 (fun f2 hf2 => hpre f2 (List.mem_cons_of_mem f hf2))]
    simp [List.replicate_succ]

/-- A truthy interceptor return without a `type` field trips the
`invariant`. -/
theorem interceptLoop_noType {V : Type} (td : Option Nat) (g : Interceptor V)
    (hg : ∀ td2 ch, ∃ ch2, g td2 ch = InterceptorOutcome.ret (some ch2) ∧ ch2.hasType = false)
    (post : List (Interceptor V)) :
    ∀ (pre : List (Interceptor V)) (c : IValueWillChange V),
      (∀ f ∈ pre, ∀ td2 ch, ∃ ch2,
        f td2 ch = InterceptorOutcome.ret (some ch2) ∧ ch2.hasType = true) →
      (interceptLoop td (pre ++ g :: post) c).1
        = Except.error InterceptError.invariantViolation := by
  intro pre
  induction pre with
  | nil =>
    intro c _
    obtain ⟨ch2, hret, htype⟩ := hg td c
    simp only [List.nil_append, interceptLoop, hret]
    rw [if_neg (by simp [htype])]
  | cons f fs ih =>
    intro c hpre
    obtain ⟨ch2, hret, htype⟩ := hpre f (List.mem_cons_self f fs) td c
    have hstep : (f :: fs) ++ g :: post = f :: (fs ++ g :: post) := rfl
    rw [hstep]
    simp only [interceptLoop, hret]
    rw [if_pos htype]
    exact ih ch2 (fun f2 hf2 => hpre f2 (List.mem_cons_of_mem f hf2))

/-- C9: `interceptChange` runs the registered interceptors in
registration order under an untracked scope (each call sees a null
tracking slot) and stops at the first falsy return, after which
`ObservableValue.set` performs no assignment and notifies no observer or
listener (silent cancel); a truthy interceptor result lacking a `type`
field raises the fatal `invariant` violation; and the previous tracking
derivation is restored on every exit (the source's `finally`), including
when an interceptor throws. -/
theorem interceptChange_spec (V : Type) [DecidableEq V] (s : GlobalEnv) (o : OV V) (v : V)
    (pre post : List (Interceptor V)) (fk g : Interceptor V) (c : IValueWillChange V)
    (hpre : ∀ f ∈ pre, ∀ td ch, ∃ ch2,
      f td ch = InterceptorOutcome.ret (some ch2) ∧ ch2.hasType = true) :
    ((∀ td ch, fk td ch = InterceptorOutcome.ret none) →
      (interceptChange s (some (pre ++ fk :: post)) c
        = (s, Except.ok none, List.replicate (pre.length + 1) (none : Option Nat))) ∧
      (s.allowStateChanges = true → o.interceptors = some (pre ++ fk :: post) →
        ObservableValue.set s o v
          = Except.ok (s, o, { reportChangedCalls := 0, notifications := [] }))) ∧
    ((∀ td ch, ∃ ch2, g td ch = InterceptorOutcome.ret (some ch2) ∧ ch2.hasType = false) →
      (interceptChange s (some (pre ++ g :: post)) c).2.1
        = Except.error InterceptError.invariantViolation) ∧
    (∀ (itcs : Option (List (Interceptor V))) (c2 : IValueWillChange V),
      (interceptChange s itcs c2).1.trackingDerivation = s.trackingDerivation) := by
  refine ⟨?_, ?_, ?_⟩
  · intro hfk
    have hchain : ∀ (c2 : IValueWillChange V), interceptChange s (some (pre ++ fk :: post)) c2
        = (s, Except.ok none, List.replicate (pre.length + 1) (none : Option Nat)) := by
      intro c2
      unfold interceptChange
      dsimp only
      rw [interceptLoop_falsy (none : Option Nat) fk hfk post pre c2 hpre]
    refine ⟨hchain c, ?_⟩
    intro hallow hitc
    have hhi : hasInterceptors o = true := by
      unfold hasInterceptors
      rw [hitc]
      simp
    have hprep : prepareNewValue s o v = (s, Except.ok none) := by
      unfold prepareNewValue
      rw [hallow]
      rw [if_neg (by decide : ¬(true = false))]
      rw [if_pos hhi, hitc]
      rw [hchain { hasType := true, newValue := v }]
    unfold ObservableValue.set
    rw [hprep]
  · intro hg
    unfold interceptChange
    dsimp only
    rw [interceptLoop_noType (none : Option Nat) g hg post pre c hpre]
  · intro itcs c2
    rfl

/-- Witness for C9 at a concrete chain: interceptor 2 of
`[itcAdd, itcFalsy, itcAdd]` rejects the change, so exactly two
interceptors run (both under a null tracking slot), the chain yields the
falsy result, and `set` on `ovC9` silently cancels. -/
theorem interceptChange_spec_witness :
    (interceptChange envDefault (some [itcAdd, itcFalsy, itcAdd])
        { hasType := true, newValue := 7 }
      = (envDefault, Except.ok none, [none, none])) ∧
    (ObservableValue.set envDefault ovC9 7
      = Except.ok (envDefault, ovC9, { reportChangedCalls := 0, notifications := [] })) := by
  have hpre : ∀ f ∈ [itcAdd], ∀ (td : Option Nat) (ch : IValueWillChange Nat), ∃ ch2,
      f td ch = InterceptorOutcome.ret (some ch2) ∧ ch2.hasType = true := by
    intro f hf td ch
    have hfi : f = itcAdd := by simpa using hf
    subst hfi
    exact ⟨{ hasType := true, newValue := ch.newValue + 1 }, rfl, rfl⟩
  have h := (interceptChange_spec Nat envDefault ovC9 7 [itcAdd] [itcAdd] itcFalsy itcNoType
    { hasType := true, newValue := 7 } hpre).1 (fun td ch => rfl)
  exact ⟨h.1.trans rfl, h.2 rfl rfl⟩

/-- C6: whenever `prepareNewValue` yields the `UNCHANGED` sentinel — in
particular whenever the value produced by the interceptor chain and the
enhancer is reference-identical to the stored value — `set` returns with
the stored value unassigned, `reportChanged` not invoked (no propagation
to any observer) and no change listener notified. -/
theorem observableValue_set_unchanged_spec (V : Type) [DecidableEq V] :
    (∀ (s s1 : GlobalEnv) (o : OV V) (v : V),
      prepareNewValue s o v = (s1, Except.ok none) →
      ObservableValue.set s o v
        = Except.ok (s1, o, { reportChangedCalls := 0, notifications := [] })) ∧
    (∀ (s : GlobalEnv) (o : OV V) (v : V),
      s.allowStateChanges = true → hasInterceptors o = false →
      o.enhancer v o.value = o.value →
      ObservableValue.set s o v
        = Except.ok (s, o, { reportChangedCalls := 0, notifications := [] })) ∧
    (∀ (s : GlobalEnv) (o : OV V) (v : V) (ch : IValueWillChange V),
      s.allowStateChanges = true → hasInterceptors o = true →
      (interceptChange s o.interceptors { hasType := true, newValue := v }).2.1
        = Except.ok (some ch) →
      o.enhancer ch.newValue o.value = o.value →
      ObservableValue.set s o v
        = Except.ok (s, o, { reportChangedCalls := 0, notifications := [] })) := by
  refine ⟨?_, ?_, ?_⟩
  · intro s s1 o v hprep
    unfold ObservableValue.set
    rw [hprep]
  · intro s o v hallow hhi henh
    have hprep : prepareNewValue s o v = (s, Except.ok none) := by
      unfold prepareNewValue
      rw [hallow]
      rw [if_neg (by decide : ¬(true = false))]
      rw [if_neg (by simp [hhi])]
      rw [henh]
      simp
    unfold ObservableValue.set
    rw [hprep]
  · intro s o v ch hallow hhi hic henh
    have hst : (interceptChange s o.interceptors
        { hasType := true, newValue := v }).1 = s := rfl
    have hprep : prepareNewValue s o v = (s, Except.ok none) := by
      unfold prepareNewValue
      rw [hallow]
      rw [if_neg (by decide : ¬(true = false))]
      rw [if_pos hhi]
      dsimp only
      rw [hic]
      dsimp only
      rw [henh, if_pos rfl, hst]
    unfold ObservableValue.set
    rw [hprep]

/-- Witness for C6: setting the stored value 5 again on `ovC6` (identity
enhancer, no interceptors) normalizes to `UNCHANGED` and is a no-op with
zero `reportChanged` calls and no notifications. -/
theorem observableValue_set_unchanged_spec_witness :
    ObservableValue.set envDefault ovC6 5
      = Except.ok (envDefault, ovC6, { reportChangedCalls := 0, notifications := [] }) :=
  (observableValue_set_unchanged_spec Nat).2.1 envDefault ovC6 5 rfl rfl rfl

/-- C10 counterexample: the claim that `notifyListeners` restores
`globalState.trackingDerivation` on every exit path — including the path
taken when `changeListeners` is null — is false.  With a tracking
derivation installed and null `changeListeners`, the early return
(listen-utils.ts line 26-27) happens after `untrackedStart` and before
`untrackedEnd`, leaving `trackingDerivation` null instead of the prior
`some 5`. -/
theorem notifyListeners_restore_cex :
    (notifyListeners envC10 ovC10 chC10).1.trackingDerivation
      ≠ envC10.trackingDerivation := by
  decide

/-- C10 (amended): after `ObservableValue.setNewValue` assigns the new
value and calls `reportChanged`, change listeners fire synchronously in
registration order with a `{type := "update", oldValue, newValue}`
record, each under an untracked scope (a null tracking slot), and
`notifyListeners` restores `globalState.trackingDerivation` on the
non-null path; on the path taken when `changeListeners` is null, the
early return skips `untrackedEnd` and leaves `trackingDerivation`
null. -/
theorem notifyListeners_spec (V : Type) (s : GlobalEnv) (o : OV V) (ch : IValueDidChange V) :
    (∀ ls, o.changeListeners = some ls →
      notifyListeners s o ch = (s, ls.map (fun tag => (tag, ch, (none : Option Nat))))) ∧
    (o.changeListeners = none →
      notifyListeners s o ch = ({ s with trackingDerivation := none }, [])) ∧
    (∀ (nv : V) (ls : List Nat), o.changeListeners = some ls → ls ≠ [] →
      setNewValue s o nv = (s, { o with value := nv },
        { reportChangedCalls := 1,
          notifications := ls.map (fun tag =>
            (tag, { type := "update", newValue := nv, oldValue := o.value },
             (none : Option Nat))) })) := by
  refine ⟨?_, ?_, ?_⟩
  · intro ls hls
    unfold notifyListeners
    rw [hls]
  · intro hnone
    unfold notifyListeners
    rw [hnone]
  · intro nv ls hls hne
    have hlsn : ({ o with value := nv } : OV V).changeListeners = some ls := hls
    have hhl : hasListeners ({ o with value := nv } : OV V) = true := by
      unfold hasListeners
      rw [hlsn]
      simp [List.length_pos, hne]
    have hnl : notifyListeners s ({ o with value := nv } : OV V)
        { type := "update", newValue := nv, oldValue := o.value }
        = (s, ls.map (fun tag =>
            (tag, ({ type := "update", newValue := nv, oldValue := o.value } : IValueDidChange V),
             (none : Option Nat)))) := by
      unfold notifyListeners
      rw [hlsn]
    unfold setNewValue
    rw [if_pos hhl]
    dsimp only
    rw [hnl]

/-- Witness for C10's amended theorem: with listeners `[11, 12]`
registered, `setNewValue` assigns 1, reports one change and notifies 11
then 12 with the update record under a null tracking slot, restoring the
tracking slot `some 5`. -/
theorem notifyListeners_spec_witness :
    setNewValue envC10 ovC10b 1
      = (envC10, { ovC10b with value := 1 },
         { reportChangedCalls := 1,
           notifications := [(11, { type := "update", newValue := 1, oldValue := 0 }, none),
                             (12, { type := "update", newValue := 1, oldValue := 0 }, none)] }) := by
  have h := (notifyListeners_spec Nat envC10 ovC10b
    { type := "update", newValue := 1, oldValue := 0 }).2.2 1 [11, 12] rfl (by decide)
  exact h.trans rfl
